import Mathlib

/-!
Verification of the ShadowWire x402 payment-negotiation core
(src/x402.ts): the proof codec (encodePaymentHeader / decodePaymentHeader),
the requirement model (parseRequirements / is402), the client orchestrator
(X402Client.request / X402Client.pay) and the server paywall gate
(x402Paywall), embedded shallowly.

Conventions of the embedding:
* JavaScript values decoded from JSON are modelled by the inductive `Json`.
  The runtime builtins JSON.stringify / JSON.parse are modelled by
  `Json.stringify` / `Json.parse` below; numbers are kept exactly as
  mantissa times a power of ten (`JNum`), so the integer comparisons the
  source performs are exact.  The model parser is slightly lenient where
  JSON.parse is strict (leading zeros, bare fractions); no theorem relies
  on an input in that gap.
* Thrown exceptions are modelled with `Except String` (the thrown message)
  or, where the source catches everything, by totality of the embedding.
* Network and wallet effects (fetch, the ShadowWire transfer capability,
  the facilitator verify/settle endpoints, the post-payment callback) are
  injected as explicit oracle functions, and the calls a code path issues
  are returned as part of the result, so "zero facilitator calls" is a
  statement about the embedding, not about timing.
-/

/-- A JSON number, kept exact as `mant * 10 ^ exp` (no float rounding). -/
structure JNum where
  mant : Int
  exp : Int := 0
deriving Repr, DecidableEq

/-- A decoded JSON value, as produced by the runtime's JSON.parse. -/
inductive Json where
  | null
  | bool (b : Bool)
  | num (n : JNum)
  | str (s : String)
  | arr (items : List Json)
  | obj (members : List (String × Json))
deriving Inhabited

/-- The exact rational value a `JNum` denotes (`mant * 10 ^ exp`), built
    from core rational constructors so it computes by reduction. -/
def JNum.val (n : JNum) : ℚ :=
  if 0 ≤ n.exp then mkRat (n.mant * ((10 ^ n.exp.toNat : Nat) : Int)) 1
  else mkRat n.mant (10 ^ (-n.exp).toNat)

/-! ### The renderer: a model of JSON.stringify (compact form, JS escaping) -/

/-- Lowercase hex digit, as emitted inside a JS \u escape. -/
def jsHexDigit (n : Nat) : Char :=
  if n < 10 then Char.ofNat (48 + n) else Char.ofNat (87 + n)

/-- How JSON.stringify escapes one character of a string literal. -/
def jsonEscapeChar (c : Char) : List Char :=
  if c = '"' then ['\\', '"']
  else if c = '\\' then ['\\', '\\']
  else if c = '\x08' then ['\\', 'b']
  else if c = '\t' then ['\\', 't']
  else if c = '\n' then ['\\', 'n']
  else if c = '\x0c' then ['\\', 'f']
  else if c = '\r' then ['\\', 'r']
  else if c.toNat < 32 then
    ['\\', 'u', '0', '0', jsHexDigit (c.toNat / 16), jsHexDigit (c.toNat % 16)]
  else [c]

/-- A rendered string literal: quote, escaped body, quote. -/
def jstrChars (s : String) : List Char :=
  '"' :: (s.data.flatMap jsonEscapeChar ++ ['"'])

/-- Decimal digit emitter behind `natDecIn`, with structural fuel (the
    value itself bounds the digit count), so it computes by reduction. -/
def natDecGo : Nat → Nat → List Char → List Char
  | 0, n, acc => Char.ofNat (48 + n % 10) :: acc
  | fuel + 1, n, acc =>
    if n < 10 then Char.ofNat (48 + n % 10) :: acc
    else natDecGo fuel (n / 10) (Char.ofNat (48 + n % 10) :: acc)

/-- Decimal digits of `n`, most significant first, pushed onto `acc`. -/
def natDecIn (n : Nat) (acc : List Char) : List Char := natDecGo n n acc

theorem natDecGo_eq_self : ∀ fuel n acc, n ≤ fuel → natDecGo fuel n acc = natDecGo n n acc := by
  intro fuel
  induction fuel using Nat.strongRecOn with
  | _ fuel ih =>
    intro n acc hle
    match fuel with
    | 0 =>
        have h0 : n = 0 := by omega
        subst h0
        rfl
    | f + 1 =>
      rw [natDecGo]
      by_cases h : n < 10
      · rw [if_pos h]
        match n with
        | 0 => rfl
        | m + 1 => simp [natDecGo, h]
      · rw [if_neg h]
        match n, hle with
        | m + 1, hle =>
          rw [ih f (by omega) _ _ (by omega)]
          have hr : natDecGo (m + 1) (m + 1) acc
              = natDecGo m ((m + 1) / 10) (Char.ofNat (48 + (m + 1) % 10) :: acc) := by
            simp [natDecGo, h]
          rw [hr, ih m (by omega) _ _ (by omega)]

/-- The recurrence of `natDecIn` (what a direct recursive definition
    would state). -/
theorem natDecIn_eq (n : Nat) (acc : List Char) :
    natDecIn n acc
      = if n < 10 then Char.ofNat (48 + n % 10) :: acc
        else natDecIn (n / 10) (Char.ofNat (48 + n % 10) :: acc) := by
  unfold natDecIn
  by_cases h : n < 10
  · rw [if_pos h]
    match n with
    | 0 => rfl
    | m + 1 => simp [natDecGo, h]
  · rw [if_neg h]
    match n with
    | m + 1 =>
      have hr : natDecGo (m + 1) (m + 1) acc
          = natDecGo m ((m + 1) / 10) (Char.ofNat (48 + (m + 1) % 10) :: acc) := by
        simp [natDecGo, h]
      rw [hr, natDecGo_eq_self m _ _ (by omega)]

/-- Decimal character run of an integer (sign, then digits). -/
def intDec (i : Int) : List Char :=
  (if i < 0 then ['-'] else []) ++ natDecIn i.natAbs []

/-- Rendered number: plain decimal for integers, mantissa-e-exponent
    otherwise.  The repository only ever serializes integers here. -/
def jnumChars (n : JNum) : List Char :=
  intDec n.mant ++ (if n.exp = 0 then [] else 'e' :: intDec n.exp)

mutual
/-- Character run of a rendered value (model of JSON.stringify). -/
def jsonChars : Json → List Char
  | .null => ['n', 'u', 'l', 'l']
  | .bool b => if b then ['t', 'r', 'u', 'e'] else ['f', 'a', 'l', 's', 'e']
  | .num n => jnumChars n
  | .str s => jstrChars s
  | .arr l => '[' :: (jarrChars l ++ [']'])
  | .obj ms => '{' :: (jobjChars ms ++ ['}'])
/-- Comma-joined rendered items of an array. -/
def jarrChars : List Json → List Char
  | [] => []
  | v :: vs => jsonChars v ++ jarrRest vs
/-- The tail of an array rendering: a comma before every further item. -/
def jarrRest : List Json → List Char
  | [] => []
  | v :: vs => ',' :: (jsonChars v ++ jarrRest vs)
/-- Comma-joined rendered members of an object. -/
def jobjChars : List (String × Json) → List Char
  | [] => []
  | (k, v) :: ms => jstrChars k ++ ':' :: (jsonChars v ++ jobjRest ms)
/-- The tail of an object rendering: a comma before every further member. -/
def jobjRest : List (String × Json) → List Char
  | [] => []
  | (k, v) :: ms => ',' :: (jstrChars k ++ ':' :: (jsonChars v ++ jobjRest ms))
end

/-- Model of JSON.stringify restricted to the compact (no-indent) form the
    source uses. -/
def Json.stringify (j : Json) : String := ⟨jsonChars j⟩

/-! ### The parser: a model of JSON.parse -/

/-- The four JSON whitespace characters. -/
def jsonWsChar (c : Char) : Bool := c == ' ' || c == '\t' || c == '\n' || c == '\r'

/-- Drop leading JSON whitespace. -/
def chompWs : List Char → List Char
  | [] => []
  | c :: cs => if jsonWsChar c then chompWs cs else c :: cs

/-- Decimal digit test. -/
def decDigit (c : Char) : Bool := '0' ≤ c && c ≤ '9'

/-- Split off the maximal leading digit run. -/
def grabDigits : List Char → List Char × List Char
  | [] => ([], [])
  | c :: cs =>
    if decDigit c then
      let p := grabDigits cs
      (c :: p.1, p.2)
    else ([], c :: cs)

/-- The natural number a digit run denotes. -/
def digitsNat (ds : List Char) : Nat :=
  ds.foldl (fun a c => a * 10 + (c.toNat - 48)) 0

/-- Value of one hex digit, if it is one. -/
def hexNibble (c : Char) : Option Nat :=
  if '0' ≤ c && c ≤ '9' then some (c.toNat - 48)
  else if 'a' ≤ c && c ≤ 'f' then some (c.toNat - 87)
  else if 'A' ≤ c && c ≤ 'F' then some (c.toNat - 55)
  else none

/-- The character a single-letter JSON escape denotes. -/
def escDecode (c : Char) : Option Char :=
  if c = '"' then some '"'
  else if c = '\\' then some '\\'
  else if c = '/' then some '/'
  else if c = 'b' then some '\x08'
  else if c = 'f' then some '\x0c'
  else if c = 'n' then some '\n'
  else if c = 'r' then some '\r'
  else if c = 't' then some '\t'
  else none

/-- Result of one string-reading step. -/
inductive StrStep where
  | done (r : String × List Char)
  | fail
  | cont (acc cs : List Char)

/-- One step of the string-body reader: closing quote, one escape, or one
    plain character. -/
def strBodyStep (acc : List Char) : List Char → StrStep
  | [] => .fail
  | c :: cs2 =>
    if c = '"' then .done (⟨acc.reverse⟩, cs2)
    else if c = '\\' then
      match cs2 with
      | 'u' :: h1 :: h2 :: h3 :: h4 :: cs3 =>
        match hexNibble h1, hexNibble h2, hexNibble h3, hexNibble h4 with
        | some a, some b, some c2, some d =>
            .cont (Char.ofNat (((a * 16 + b) * 16 + c2) * 16 + d) :: acc) cs3
        | _, _, _, _ => .fail
      | e :: cs3 =>
        match escDecode e with
        | some ch => .cont (ch :: acc) cs3
        | none => .fail
      | [] => .fail
    else .cont (c :: acc) cs2

theorem strBodyStep_shrink (acc cs acc2 cs2 : List Char) :
    strBodyStep acc cs = .cont acc2 cs2 → cs2.length < cs.length := by
  intro h
  rcases cs with _ | ⟨c, r⟩
  · simp [strBodyStep] at h
  · simp only [strBodyStep] at h
    repeat' split at h
    all_goals simp_all
    all_goals omega

/-- The string-body loop, with structural fuel. -/
def strBodyGo : Nat → List Char → List Char → Option (String × List Char)
  | 0, _, _ => none
  | fuel + 1, acc, cs =>
    match strBodyStep acc cs with
    | .done r => some r
    | .fail => none
    | .cont acc2 cs2 => strBodyGo fuel acc2 cs2

/-- Read a string body after the opening quote, unescaping as it goes. -/
def strBody (acc cs : List Char) : Option (String × List Char) :=
  strBodyGo (cs.length + 1) acc cs

theorem strBodyGo_eq_self : ∀ fuel acc cs, cs.length < fuel →
    strBodyGo fuel acc cs = strBody acc cs := by
  intro fuel
  induction fuel using Nat.strongRecOn with
  | _ fuel ih =>
    intro acc cs hlt
    match fuel, hlt with
    | f + 1, hlt =>
      unfold strBody
      simp only [strBodyGo]
      match hs : strBodyStep acc cs with
      | .done r => rfl
      | .fail => rfl
      | .cont acc2 cs2 =>
        have hlen := strBodyStep_shrink acc cs acc2 cs2 hs
        show strBodyGo f acc2 cs2 = strBodyGo cs.length acc2 cs2
        rw [ih f (by omega) acc2 cs2 (by omega),
            ih cs.length (by omega) acc2 cs2 (by omega)]

/-- The recurrence of `strBody`. -/
theorem strBody_eq (acc cs : List Char) :
    strBody acc cs
      = (match strBodyStep acc cs with
         | .done r => some r
         | .fail => none
         | .cont acc2 cs2 => strBody acc2 cs2) := by
  conv_lhs => unfold strBody
  simp only [strBodyGo]
  match hs : strBodyStep acc cs with
  | .done r => rfl
  | .fail => rfl
  | .cont acc2 cs2 =>
    have hlen := strBodyStep_shrink acc cs acc2 cs2 hs
    show strBodyGo cs.length acc2 cs2 = strBody acc2 cs2
    exact strBodyGo_eq_self cs.length acc2 cs2 (by omega)

/-- Read a JSON number (sign, integer part, optional fraction and
    exponent) into an exact `JNum`. -/
def readNum (cs : List Char) : Option (JNum × List Char) :=
  let s1 : Bool × List Char := match cs with | '-' :: r => (true, r) | _ => (false, cs)
  let ip := grabDigits s1.2
  if ip.1 = [] then none
  else
    let fp : List Char × List Char :=
      match ip.2 with | '.' :: r => grabDigits r | _ => ([], ip.2)
    let ep : Int × List Char :=
      match fp.2 with
      | 'e' :: r | 'E' :: r =>
        let sg : Int × List Char :=
          match r with | '+' :: r2 => (1, r2) | '-' :: r2 => (-1, r2) | _ => (1, r)
        let ed := grabDigits sg.2
        (sg.1 * (digitsNat ed.1 : Int), ed.2)
      | _ => (0, fp.2)
    some (⟨(if s1.1 then -1 else 1) * (digitsNat (ip.1 ++ fp.1) : Int),
           ep.1 - (fp.1.length : Int)⟩, ep.2)

mutual
/-- Read one JSON value (model of JSON.parse's grammar; fuel for totality). -/
def readVal : Nat → List Char → Option (Json × List Char)
  | 0, _ => none
  | fuel + 1, cs =>
    match chompWs cs with
    | 'n' :: 'u' :: 'l' :: 'l' :: r => some (.null, r)
    | 't' :: 'r' :: 'u' :: 'e' :: r => some (.bool true, r)
    | 'f' :: 'a' :: 'l' :: 's' :: 'e' :: r => some (.bool false, r)
    | '"' :: r =>
      match strBody [] r with
      | some (s, r2) => some (.str s, r2)
      | none => none
    | '[' :: r =>
      match chompWs r with
      | [] => none
      | c :: r2 =>
        if c = ']' then some (.arr [], r2)
        else
          match readItems fuel (c :: r2) with
          | some (vs, r3) => some (.arr vs, r3)
          | none => none
    | '{' :: r =>
      match chompWs r with
      | [] => none
      | c :: r2 =>
        if c = '}' then some (.obj [], r2)
        else
          match readMembers fuel (c :: r2) with
          | some (ms, r3) => some (.obj ms, r3)
          | none => none
    | c :: r =>
      if c == '-' || decDigit c then
        match readNum (c :: r) with
        | some (n, r2) => some (.num n, r2)
        | none => none
      else none
    | [] => none
/-- Read one or more comma-separated array items up to the closing bracket. -/
def readItems : Nat → List Char → Option (List Json × List Char)
  | 0, _ => none
  | fuel + 1, cs =>
    match readVal fuel cs with
    | none => none
    | some (v, r) =>
      match chompWs r with
      | ',' :: r2 =>
        match readItems fuel (chompWs r2) with
        | some (vs, r3) => some (v :: vs, r3)
        | none => none
      | ']' :: r2 => some ([v], r2)
      | _ => none
/-- Read one or more comma-separated object members up to the closing brace. -/
def readMembers : Nat → List Char → Option (List (String × Json) × List Char)
  | 0, _ => none
  | fuel + 1, cs =>
    match chompWs cs with
    | '"' :: r =>
      match strBody [] r with
      | none => none
      | some (k, r1) =>
        match chompWs r1 with
        | ':' :: r2 =>
          match readVal fuel (chompWs r2) with
          | none => none
          | some (v, r3) =>
            match chompWs r3 with
            | ',' :: r4 =>
              match readMembers fuel (chompWs r4) with
              | some (ms, r5) => some ((k, v) :: ms, r5)
              | none => none
            | '}' :: r4 => some ([(k, v)], r4)
            | _ => none
        | _ => none
    | _ => none
end

/-- Model of JSON.parse: one complete value, possibly surrounded by
    whitespace; anything else (including trailing input) fails, which
    models the thrown SyntaxError the source catches. -/
def Json.parse (s : String) : Option Json :=
  match readVal (s.data.length + 1) s.data with
  | some (j, r) => if chompWs r = [] then some j else none
  | none => none

/-! ### JavaScript value helpers used by the source -/

/-- Last-wins member lookup, matching how JSON.parse builds JS objects
    (a duplicated key keeps its final value). -/
def memberGet : List (String × Json) → String → Option Json
  | [], _ => none
  | (k, v) :: ms, key =>
    match memberGet ms key with
    | some r => some r
    | none => if k = key then some v else none

/-- Property access `j.key`: defined members of objects, undefined (`none`)
    on everything else.  Access on `null` throws in JS; every use site in
    the source catches or optional-chains, and lands on the same outcome
    as `none`, so the embedding folds the two together. -/
def jGet (j : Json) (key : String) : Option Json :=
  match j with
  | .obj ms => memberGet ms key
  | _ => none

/-- JS truthiness of a decoded JSON value. -/
def jTruthy : Json → Bool
  | .null => false
  | .bool b => b
  | .num n => decide (n.val ≠ 0)
  | .str s => decide (s ≠ "")
  | .arr _ => true
  | .obj _ => true

/-- Truthiness of a possibly-undefined value (`undefined` is falsy). -/
def jTruthyOpt : Option Json → Bool
  | none => false
  | some v => jTruthy v

/-! ### Round-trip of the JSON model: digits and numbers -/

/-- The digit character of `k < 10` reads back as `k` and passes `decDigit`. -/
theorem digitChar_spec (k : Nat) (h : k < 10) :
    (Char.ofNat (48 + k)).toNat - 48 = k ∧ decDigit (Char.ofNat (48 + k)) = true := by
  have hall : ∀ x : Fin 10,
      (Char.ofNat (48 + x.val)).toNat - 48 = x.val ∧
      decDigit (Char.ofNat (48 + x.val)) = true := by decide
  exact hall ⟨k, h⟩

/-- The accumulator of `natDecIn` just rides along on the right. -/
theorem natDecIn_shift (n : Nat) : ∀ acc : List Char,
    natDecIn n acc = natDecIn n [] ++ acc := by
  induction n using Nat.strongRecOn with
  | _ n ih =>
    intro acc
    rw [natDecIn_eq n acc, natDecIn_eq n []]
    by_cases h : n < 10
    · simp [h]
    · have hdiv : n / 10 < n := by omega
      simp only [if_neg h]
      rw [ih (n / 10) hdiv, ih (n / 10) hdiv [_]]
      simp

/-- One unfolding of `natDecIn`, in least-significant-digit-last form. -/
theorem natDecIn_peel (n : Nat) :
    natDecIn n [] = (if n < 10 then [] else natDecIn (n / 10) [])
                    ++ [Char.ofNat (48 + n % 10)] := by
  rw [natDecIn_eq]
  by_cases h : n < 10
  · simp [h]
  · simp only [if_neg h]
    exact natDecIn_shift (n / 10) [_]

theorem natDecIn_ne_nil (n : Nat) : natDecIn n [] ≠ [] := by
  rw [natDecIn_peel]; simp

theorem natDecIn_digits (n : Nat) : ∀ c ∈ natDecIn n [], decDigit c = true := by
  induction n using Nat.strongRecOn with
  | _ n ih =>
    rw [natDecIn_peel]
    intro c hc
    rw [List.mem_append] at hc
    rcases hc with hin | hlast
    · by_cases hsmall : n < 10
      · simp [hsmall] at hin
      · have hdiv : n / 10 < n := by omega
        exact ih (n / 10) hdiv c (by simpa [hsmall] using hin)
    · rw [List.mem_singleton] at hlast
      subst hlast
      have hmod : n % 10 < 10 := Nat.mod_lt _ (by omega)
      exact (digitChar_spec _ hmod).2

theorem digitsNat_natDecIn (n : Nat) : digitsNat (natDecIn n []) = n := by
  induction n using Nat.strongRecOn with
  | _ n ih =>
    rw [natDecIn_peel]
    unfold digitsNat
    rw [List.foldl_append]
    by_cases h : n < 10
    · simp only [if_pos h, List.foldl_nil, List.foldl_cons]
      rw [(digitChar_spec _ (Nat.mod_lt _ (by omega))).1]
      omega
    · simp only [if_neg h, List.foldl_cons, List.foldl_nil]
      have := ih (n / 10) (by omega)
      unfold digitsNat at this
      rw [this, (digitChar_spec _ (Nat.mod_lt _ (by omega))).1]
      omega

/-- A remainder that cannot extend a rendered number: empty, or headed by
    something that is neither a digit nor `.`, `e`, `E`.  Every JSON
    delimiter (comma, closing brackets, end of input) qualifies. -/
def numStop : List Char → Bool
  | [] => true
  | c :: _ => !(decDigit c || c == '.' || c == 'e' || c == 'E')

theorem grabDigits_cons_not {c : Char} {t : List Char} (h : decDigit c = false) :
    grabDigits (c :: t) = ([], c :: t) := by
  simp [grabDigits, h]

theorem grabDigits_stop {cs : List Char} (h : numStop cs = true) :
    grabDigits cs = ([], cs) := by
  match cs with
  | [] => rfl
  | c :: t =>
      simp only [numStop, Bool.not_eq_true', Bool.or_eq_false_iff] at h
      exact grabDigits_cons_not h.1.1.1

/-- `grabDigits` consumes exactly a digit run, stopping where told. -/
theorem grabDigits_run (ds : List Char) (hds : ∀ c ∈ ds, decDigit c = true)
    (rest : List Char) (hrest : grabDigits rest = ([], rest)) :
    grabDigits (ds ++ rest) = (ds, rest) := by
  induction ds with
  | nil => simpa using hrest
  | cons c t ih =>
      have hc : decDigit c = true := hds c (by simp)
      have ht := ih (fun x hx => hds x (by simp [hx]))
      simp [grabDigits, hc, ht]

theorem natDecIn_head (m : Nat) :
    ∃ c t, natDecIn m [] = c :: t ∧ decDigit c = true := by
  match h : natDecIn m [] with
  | [] => exact absurd h (natDecIn_ne_nil m)
  | c :: t => exact ⟨c, t, rfl, natDecIn_digits m c (h ▸ List.mem_cons_self ..)⟩

theorem decDigit_not_sign {c : Char} (h : decDigit c = true) : c ≠ '-' ∧ c ≠ '+' := by
  constructor <;> (intro he; subst he; simp [decDigit] at h)

theorem numStop_head {c : Char} {t : List Char} (h : numStop (c :: t) = true) :
    decDigit c = false ∧ c ≠ '.' ∧ c ≠ 'e' ∧ c ≠ 'E' := by
  simp only [numStop, Bool.not_eq_true', Bool.or_eq_false_iff, beq_eq_false_iff_ne] at h
  exact ⟨h.1.1.1, h.1.1.2, h.1.2, h.2⟩

/-- Number inverse for the integer numbers the codec emits (`exp = 0`):
    reading back a rendered integer recovers it, whenever the remainder
    cannot extend the digit run. -/
theorem readNum_inv (n : JNum) (hexp : n.exp = 0) (rest : List Char)
    (hr : numStop rest = true) :
    readNum (jnumChars n ++ rest) = some (n, rest) := by
  obtain ⟨m, ex⟩ := n
  simp only at hexp
  subst hexp
  by_cases hm : m < 0
  · have harg : jnumChars ⟨m, 0⟩ ++ rest = '-' :: (natDecIn m.natAbs [] ++ rest) := by
      simp [jnumChars, intDec, hm]
    rw [harg]
    simp only [readNum]
    rw [grabDigits_run _ (natDecIn_digits _) _ (grabDigits_stop hr)]
    rw [if_neg (by simp [natDecIn_ne_nil])]
    cases rest with
    | nil => simp [digitsNat_natDecIn, -Int.natCast_natAbs]; omega
    | cons c t =>
        obtain ⟨hd, hdot, he, hE⟩ := numStop_head hr
        simp [hdot, he, hE, digitsNat_natDecIn, -Int.natCast_natAbs]
        omega
  · obtain ⟨c0, t0, hm0, hc0⟩ := natDecIn_head m.natAbs
    obtain ⟨hns, hps⟩ := decDigit_not_sign hc0
    have harg : jnumChars ⟨m, 0⟩ ++ rest = c0 :: (t0 ++ rest) := by
      simp [jnumChars, intDec, hm, hm0]
    rw [harg]
    simp only [readNum]
    have htd : grabDigits (c0 :: (t0 ++ rest)) = (c0 :: t0, rest) := by
      have := grabDigits_run _ (natDecIn_digits m.natAbs) _ (grabDigits_stop hr)
      rwa [hm0, List.cons_append] at this
    have hdi : digitsNat (c0 :: t0) = m.natAbs := by
      have := digitsNat_natDecIn m.natAbs
      rwa [hm0] at this
    cases rest with
    | nil =>
        rw [List.append_nil] at htd
        simp [hns, htd, hdi]
        omega
    | cons c t =>
        obtain ⟨hd, hdot, he, hE⟩ := numStop_head hr
        simp [hns, htd, hdi, hdot, he, hE]
        omega

/-! ### Round-trip of the JSON model: strings -/

theorem hexNibble_jsHexDigit (d : Nat) (h : d < 16) : hexNibble (jsHexDigit d) = some d := by
  have hall : ∀ x : Fin 16, hexNibble (jsHexDigit x.val) = some x.val := by decide
  exact hall ⟨d, h⟩

/-- Reading one escaped character undoes the escaping. -/
theorem strBody_escape (c : Char) (acc rest : List Char) :
    strBody acc (jsonEscapeChar c ++ rest) = strBody (c :: acc) rest := by
  by_cases h1 : c = '"'
  · subst h1; rw [strBody_eq]; simp [jsonEscapeChar, strBodyStep, escDecode]
  by_cases h2 : c = '\\'
  · subst h2; rw [strBody_eq]; simp [jsonEscapeChar, strBodyStep, escDecode]
  by_cases h3 : c = '\x08'
  · subst h3; rw [strBody_eq]; simp [jsonEscapeChar, strBodyStep, escDecode]
  by_cases h4 : c = '\t'
  · subst h4; rw [strBody_eq]; simp [jsonEscapeChar, strBodyStep, escDecode]
  by_cases h5 : c = '\n'
  · subst h5; rw [strBody_eq]; simp [jsonEscapeChar, strBodyStep, escDecode]
  by_cases h6 : c = '\x0c'
  · subst h6; rw [strBody_eq]; simp [jsonEscapeChar, strBodyStep, escDecode]
  by_cases h7 : c = '\r'
  · subst h7; rw [strBody_eq]; simp [jsonEscapeChar, strBodyStep, escDecode]
  by_cases h8 : c.toNat < 32
  · have e : jsonEscapeChar c
        = ['\\', 'u', '0', '0', jsHexDigit (c.toNat / 16), jsHexDigit (c.toNat % 16)] := by
      simp [jsonEscapeChar, h1, h2, h3, h4, h5, h6, h7, h8]
    rw [e]
    have harith : ((0 * 16 + 0) * 16 + c.toNat / 16) * 16 + c.toNat % 16 = c.toNat := by omega
    have h0 : hexNibble '0' = some 0 := by decide
    rw [List.cons_append, strBody_eq]
    simp [strBodyStep, h0, hexNibble_jsHexDigit _ (show c.toNat / 16 < 16 by omega),
      hexNibble_jsHexDigit _ (show c.toNat % 16 < 16 by omega)]
    rw [show c.toNat / 16 * 16 + c.toNat % 16 = c.toNat from by omega, Char.ofNat_toNat]
  · have e : jsonEscapeChar c = [c] := by
      simp [jsonEscapeChar, h1, h2, h3, h4, h5, h6, h7, h8]
    rw [e]
    simp only [List.cons_append, List.nil_append]
    rw [strBody_eq]
    simp only [strBodyStep]
    rw [if_neg h1, if_neg h2]

/-- Reading an escaped run stops exactly at the closing quote. -/
theorem strBody_flat (cs : List Char) : ∀ (acc rest : List Char),
    strBody acc (cs.flatMap jsonEscapeChar ++ '"' :: rest)
      = some (⟨acc.reverse ++ cs⟩, rest) := by
  induction cs with
  | nil =>
      intro acc rest
      rw [List.flatMap_nil, List.nil_append, strBody_eq]
      simp [strBodyStep]
  | cons c cs ih =>
      intro acc rest
      rw [List.flatMap_cons, List.append_assoc, strBody_escape, ih]
      simp

/-- The string inverse: reading back a rendered string body recovers it. -/
theorem strBody_render (s : String) (rest : List Char) :
    strBody [] (s.data.flatMap jsonEscapeChar ++ '"' :: rest) = some (s, rest) := by
  rw [strBody_flat]
  rfl

/-! ### Round-trip of the JSON model: values -/

theorem numStop_of_head {c : Char} {t : List Char}
    (h : (decDigit c || c == '.' || c == 'e' || c == 'E') = false) :
    numStop (c :: t) = true := by
  simp [numStop, h]

theorem decDigit_not_delims {c : Char} (h : decDigit c = true) :
    jsonWsChar c = false ∧ c ≠ ']' ∧ c ≠ '}' := by
  refine ⟨?_, ?_, ?_⟩
  · simp only [jsonWsChar, Bool.or_eq_false_iff, beq_eq_false_iff_ne]
    refine ⟨⟨⟨?_, ?_⟩, ?_⟩, ?_⟩ <;> (intro he; subst he; exact absurd h (by decide))
  · intro he; subst he; exact absurd h (by decide)
  · intro he; subst he; exact absurd h (by decide)

theorem decDigit_not_openers {c : Char} (h : decDigit c = true) :
    c ≠ 'n' ∧ c ≠ 't' ∧ c ≠ 'f' ∧ c ≠ '"' ∧ c ≠ '[' ∧ c ≠ '{' := by
  have hne : ∀ x : Char, decDigit x = false → c ≠ x := by
    intro x hx he
    subst he
    rw [h] at hx
    cases hx
  exact ⟨hne _ (by decide), hne _ (by decide), hne _ (by decide),
         hne _ (by decide), hne _ (by decide), hne _ (by decide)⟩

/-- Every rendered value starts with a non-whitespace character that closes
    neither an array nor an object. -/
theorem jsonChars_head (j : Json) :
    ∃ c t, jsonChars j = c :: t ∧ jsonWsChar c = false ∧ c ≠ ']' ∧ c ≠ '}' := by
  cases j with
  | num n =>
      by_cases hm : n.mant < 0
      · refine ⟨'-', natDecIn n.mant.natAbs []
            ++ (if n.exp = 0 then [] else 'e' :: intDec n.exp),
            ?_, by decide⟩
        simp [jsonChars, jnumChars, intDec, hm]
      · obtain ⟨c0, t0, h0, hc0⟩ := natDecIn_head n.mant.natAbs
        obtain ⟨hws, hbr, hbc⟩ := decDigit_not_delims hc0
        refine ⟨c0, t0 ++ (if n.exp = 0 then [] else 'e' :: intDec n.exp),
                ?_, hws, hbr, hbc⟩
        simp [jsonChars, jnumChars, intDec, hm, h0]
  | null => exact ⟨'n', _, rfl, by decide⟩
  | bool b =>
      cases b with
      | true => exact ⟨'t', _, rfl, by decide⟩
      | false => exact ⟨'f', _, rfl, by decide⟩
  | str s => exact ⟨'"', _, rfl, by decide⟩
  | arr l => exact ⟨'[', _, rfl, by decide⟩
  | obj ms => exact ⟨'{', _, rfl, by decide⟩

/-- `chompWs` is the identity on rendered output. -/
theorem chompWs_jsonChars (j : Json) (x : List Char) :
    chompWs (jsonChars j ++ x) = jsonChars j ++ x := by
  obtain ⟨c, t, hren, hcws, _, _⟩ := jsonChars_head j
  rw [hren, List.cons_append]
  simp [chompWs, hcws]

theorem chompWs_jarrChars (v : Json) (vs : List Json) (x : List Char) :
    chompWs (jarrChars (v :: vs) ++ x) = jarrChars (v :: vs) ++ x := by
  simp only [jarrChars, List.append_assoc]
  exact chompWs_jsonChars v _

theorem jobjChars_cons (k : String) (v : Json) (ms : List (String × Json)) :
    jobjChars ((k, v) :: ms) = jstrChars k ++ ':' :: (jsonChars v ++ jobjRest ms) := rfl

theorem jobjRest_cons (k : String) (v : Json) (ms : List (String × Json)) :
    jobjRest ((k, v) :: ms) = ',' :: jobjChars ((k, v) :: ms) := rfl

theorem chompWs_jobjChars (k : String) (v : Json) (ms : List (String × Json)) (x : List Char) :
    chompWs (jobjChars ((k, v) :: ms) ++ x) = jobjChars ((k, v) :: ms) ++ x := by
  simp only [jobjChars_cons, jstrChars, List.cons_append, List.append_assoc]
  simp [chompWs, jsonWsChar]

/-- A value whose rendering starts like a number goes through `readNum`. -/
theorem readVal_to_readNum (f : Nat) (c0 : Char) (t : List Char)
    (hg : (c0 == '-' || decDigit c0) = true)
    (hrest : jsonWsChar c0 = false ∧
      c0 ≠ 'n' ∧ c0 ≠ 't' ∧ c0 ≠ 'f' ∧ c0 ≠ '"' ∧ c0 ≠ '[' ∧ c0 ≠ '{') :
    readVal (f + 1) (c0 :: t)
      = (match readNum (c0 :: t) with
         | some (n, r2) => some (.num n, r2)
         | none => none) := by
  obtain ⟨hws, hn, ht, hf, hq, hbk, hbc⟩ := hrest
  simp only [readVal]
  rw [show chompWs (c0 :: t) = c0 :: t from by simp [chompWs, hws]]
  simp [hn, ht, hf, hg]

theorem readVal_num (n : JNum) (hexp : n.exp = 0) (f : Nat) (rest : List Char)
    (hr : numStop rest = true) :
    readVal (f + 1) (jnumChars n ++ rest) = some (.num n, rest) := by
  by_cases hm : n.mant < 0
  · have harg : jnumChars n ++ rest
        = '-' :: (natDecIn n.mant.natAbs [] ++ rest) := by
      simp [jnumChars, intDec, hm, hexp]
    rw [harg, readVal_to_readNum f '-' _ (by decide) (by decide),
        ← harg, readNum_inv n hexp rest hr]
  · obtain ⟨c0, t0, h0, hc0⟩ := natDecIn_head n.mant.natAbs
    obtain ⟨hn, ht, hf2, hq, hbk, hbc⟩ := decDigit_not_openers hc0
    obtain ⟨hws, _, _⟩ := decDigit_not_delims hc0
    have harg : jnumChars n ++ rest = c0 :: (t0 ++ rest) := by
      simp [jnumChars, intDec, hm, hexp, h0]
    rw [harg, readVal_to_readNum f c0 _ (by simp [hc0]) ⟨hws, hn, ht, hf2, hq, hbk, hbc⟩,
        ← harg, readNum_inv n hexp rest hr]

mutual
/-- All numbers in a value are integers (`exp = 0`); always true of the
    values the codec serializes. -/
def intNumsB : Json → Bool
  | .null => true
  | .bool _ => true
  | .num n => n.exp == 0
  | .str _ => true
  | .arr l => intNumsArr l
  | .obj ms => intNumsObj ms
def intNumsArr : List Json → Bool
  | [] => true
  | v :: vs => intNumsB v && intNumsArr vs
def intNumsObj : List (String × Json) → Bool
  | [] => true
  | (_, v) :: ms => intNumsB v && intNumsObj ms
end

/-- The array branch of the reader reduces to wrapping `readItems` when the
    item list is nonempty (its rendering cannot start with a close bracket). -/
theorem readVal_arr (v : Json) (vs : List Json) (f : Nat) (rest : List Char) :
    readVal (f + 1) ('[' :: (jarrChars (v :: vs) ++ ']' :: rest))
      = (match readItems f (jarrChars (v :: vs) ++ ']' :: rest) with
         | some (xs, r2) => some (.arr xs, r2)
         | none => none) := by
  obtain ⟨c, t, hren, hcws, hcbr, _⟩ := jsonChars_head v
  have hcons : jarrChars (v :: vs) ++ ']' :: rest
             = c :: (t ++ jarrRest vs ++ ']' :: rest) := by
    simp only [jarrChars, hren, List.cons_append, List.append_assoc]
  have step : readVal (f + 1) ('[' :: (jarrChars (v :: vs) ++ ']' :: rest))
            = (match chompWs (jarrChars (v :: vs) ++ ']' :: rest) with
               | [] => none
               | c2 :: r2 =>
                 if c2 = ']' then some (.arr [], r2)
                 else
                   match readItems f (c2 :: r2) with
                   | some (xs, r3) => some (.arr xs, r3)
                   | none => none) := rfl
  rw [step, chompWs_jarrChars v vs (']' :: rest), hcons]
  simp only [if_neg hcbr]

/-- The object branch reduces to wrapping `readMembers`: a nonempty member
    list renders starting with the key's quote, never a close brace. -/
theorem readVal_obj (k : String) (v : Json) (ms : List (String × Json))
    (f : Nat) (rest : List Char) :
    readVal (f + 1) ('{' :: (jobjChars ((k, v) :: ms) ++ '}' :: rest))
      = (match readMembers f (jobjChars ((k, v) :: ms) ++ '}' :: rest) with
         | some (ms2, r2) => some (.obj ms2, r2)
         | none => none) := by
  have hcons : jobjChars ((k, v) :: ms) ++ '}' :: rest
      = '"' :: (k.data.flatMap jsonEscapeChar
          ++ ('"' :: (':' :: (jsonChars v ++ (jobjRest ms ++ '}' :: rest))))) := by
    simp [jobjChars_cons, jstrChars]
  have step : readVal (f + 1) ('{' :: (jobjChars ((k, v) :: ms) ++ '}' :: rest))
      = (match chompWs (jobjChars ((k, v) :: ms) ++ '}' :: rest) with
         | [] => none
         | c2 :: r2 =>
           if c2 = '}' then some (.obj [], r2)
           else
             match readMembers f (c2 :: r2) with
             | some (ms2, r3) => some (.obj ms2, r3)
             | none => none) := rfl
  rw [step, chompWs_jobjChars, hcons]
  simp only [if_neg (by decide : ¬('"' = '}'))]

/-- One-step unfolding of `readItems` at successor fuel. -/
theorem readItems_step (f : Nat) (cs : List Char) :
    readItems (f + 1) cs
      = (match readVal f cs with
         | none => none
         | some (v, r) =>
           match chompWs r with
           | ',' :: r2 =>
             (match readItems f (chompWs r2) with
              | some (vs, r3) => some (v :: vs, r3)
              | none => none)
           | ']' :: r2 => some ([v], r2)
           | _ => none) := rfl

/-- One-step unfolding of `readMembers` at successor fuel. -/
theorem readMembers_step (f : Nat) (cs : List Char) :
    readMembers (f + 1) cs
      = (match chompWs cs with
         | '"' :: r =>
           match strBody [] r with
           | none => none
           | some (k, r1) =>
             match chompWs r1 with
             | ':' :: r2 =>
               match readVal f (chompWs r2) with
               | none => none
               | some (v, r3) =>
                 match chompWs r3 with
                 | ',' :: r4 =>
                   match readMembers f (chompWs r4) with
                   | some (ms, r5) => some ((k, v) :: ms, r5)
                   | none => none
                 | '}' :: r4 => some ([(k, v)], r4)
                 | _ => none
             | _ => none
         | _ => none) := rfl

mutual
/-- Reading back a rendered value recovers it (integer numbers only, which
    covers everything the codec serializes). -/
theorem rtVal : ∀ (j : Json) (fuel : Nat) (rest : List Char),
    intNumsB j = true → (jsonChars j).length < fuel → numStop rest = true →
    readVal fuel (jsonChars j ++ rest) = some (j, rest)
  | .null, fuel, rest, _, hf, _ => by
      cases fuel with
      | zero => simp [jsonChars] at hf
      | succ f => simp [jsonChars, readVal, chompWs, jsonWsChar]
  | .bool b, fuel, rest, _, hf, _ => by
      cases fuel with
      | zero => cases b <;> simp [jsonChars] at hf
      | succ f => cases b <;> simp [jsonChars, readVal, chompWs, jsonWsChar]
  | .num n, fuel, rest, hi, hf, hr => by
      cases fuel with
      | zero => exact absurd hf (Nat.not_lt_zero _)
      | succ f =>
          have hexp : n.exp = 0 := by simpa [intNumsB] using hi
          exact readVal_num n hexp f rest hr
  | .str s, fuel, rest, _, hf, _ => by
      cases fuel with
      | zero => exact absurd hf (Nat.not_lt_zero _)
      | succ f =>
          have harg : jsonChars (.str s) ++ rest
              = '"' :: (s.data.flatMap jsonEscapeChar ++ ('"' :: rest)) := by
            simp [jsonChars, jstrChars]
          rw [harg]
          simp [readVal, chompWs, jsonWsChar, strBody_render]
  | .arr [], fuel, rest, _, hf, _ => by
      cases fuel with
      | zero => simp [jsonChars, jarrChars] at hf
      | succ f => simp [jsonChars, jarrChars, readVal, chompWs, jsonWsChar]
  | .arr (v :: vs), fuel, rest, hi, hf, _ => by
      have hall : intNumsB v = true ∧ intNumsArr vs = true := by
        simpa [intNumsB, intNumsArr] using hi
      cases fuel with
      | zero => exact absurd hf (Nat.not_lt_zero _)
      | succ f =>
          have hfe : (jarrChars (v :: vs)).length + 1 < f := by
            simp only [jsonChars, List.length_cons, List.length_append] at hf
            simp at hf
            omega
          have key := rtItems v vs f rest hall.1 hall.2 hfe
          have harr : jsonChars (.arr (v :: vs)) ++ rest
                    = '[' :: (jarrChars (v :: vs) ++ ']' :: rest) := by
            simp [jsonChars]
          rw [harr, readVal_arr v vs f rest, key]
  | .obj [], fuel, rest, _, hf, _ => by
      cases fuel with
      | zero => simp [jsonChars, jobjChars] at hf
      | succ f => simp [jsonChars, jobjChars, readVal, chompWs, jsonWsChar]
  | .obj ((k, v) :: ms), fuel, rest, hi, hf, _ => by
      have hall : intNumsB v = true ∧ intNumsObj ms = true := by
        simpa [intNumsB, intNumsObj] using hi
      cases fuel with
      | zero => exact absurd hf (Nat.not_lt_zero _)
      | succ f =>
          have hfm : (jobjChars ((k, v) :: ms)).length + 1 < f := by
            simp only [jsonChars, List.length_cons, List.length_append] at hf
            simp at hf
            omega
          have key := rtMembers k v ms f rest hall.1 hall.2 hfm
          have hobj : jsonChars (.obj ((k, v) :: ms)) ++ rest
                    = '{' :: (jobjChars ((k, v) :: ms) ++ '}' :: rest) := by
            simp [jsonChars]
          rw [hobj, readVal_obj k v ms f rest, key]
termination_by j _ _ _ _ _ => sizeOf j
/-- Reading back a rendered nonempty item list recovers it. -/
theorem rtItems : ∀ (v : Json) (vs : List Json) (f : Nat) (rest : List Char),
    intNumsB v = true → intNumsArr vs = true →
    (jarrChars (v :: vs)).length + 1 < f →
    readItems f (jarrChars (v :: vs) ++ ']' :: rest) = some (v :: vs, rest)
  | v, [], f, rest, hiv, _, hf => by
      cases f with
      | zero => omega
      | succ f2 =>
          have hfe : (jsonChars v).length < f2 := by
            simp only [jarrChars, jarrRest, List.append_nil] at hf
            omega
          have hv := rtVal v f2 (']' :: rest) hiv hfe (numStop_of_head (by decide))
          have harg : jarrChars (v :: []) ++ ']' :: rest = jsonChars v ++ ']' :: rest := by
            simp [jarrChars, jarrRest]
          rw [harg, readItems_step, hv]
          simp [chompWs, jsonWsChar]
  | v, x :: xs, f, rest, hiv, hixs, hf => by
      have hx : intNumsB x = true ∧ intNumsArr xs = true := by
        simpa [intNumsArr] using hixs
      cases f with
      | zero => omega
      | succ f2 =>
          simp only [jarrChars, jarrRest, List.length_append, List.length_cons] at hf
          have hfe : (jsonChars v).length < f2 := by omega
          have hfx : (jarrChars (x :: xs)).length + 1 < f2 := by
            simp only [jarrChars, List.length_append]
            omega
          have hv := rtVal v f2
            (',' :: (jarrChars (x :: xs) ++ ']' :: rest)) hiv hfe
            (numStop_of_head (by decide))
          have key := rtItems x xs f2 rest hx.1 hx.2 hfx
          have harg : jarrChars (v :: x :: xs) ++ ']' :: rest
                    = jsonChars v ++ ',' :: (jarrChars (x :: xs) ++ ']' :: rest) := by
            simp only [jarrChars, jarrRest, List.cons_append, List.append_assoc]
          have hcomma : chompWs (',' :: (jarrChars (x :: xs) ++ ']' :: rest))
                      = ',' :: (jarrChars (x :: xs) ++ ']' :: rest) := by
            simp [chompWs, jsonWsChar]
          have h2 := chompWs_jarrChars x xs (']' :: rest)
          rw [harg, readItems_step, hv]
          simp only [hcomma, h2, key]
termination_by v vs _ _ _ _ _ => sizeOf v + sizeOf vs
/-- Reading back a rendered nonempty member list recovers it. -/
theorem rtMembers : ∀ (k : String) (v : Json) (ms : List (String × Json))
    (f : Nat) (rest : List Char),
    intNumsB v = true → intNumsObj ms = true →
    (jobjChars ((k, v) :: ms)).length + 1 < f →
    readMembers f (jobjChars ((k, v) :: ms) ++ '}' :: rest) = some ((k, v) :: ms, rest)
  | k, v, [], f, rest, hiv, _, hf => by
      cases f with
      | zero => omega
      | succ f2 =>
          have hfe : (jsonChars v).length < f2 := by
            simp only [jobjChars_cons, jobjRest, jstrChars, List.append_nil,
                       List.length_append, List.length_cons] at hf
            omega
          have hv := rtVal v f2 ('}' :: rest) hiv hfe (numStop_of_head (by decide))
          have harg : jobjChars ((k, v) :: []) ++ '}' :: rest
              = '"' :: (k.data.flatMap jsonEscapeChar
                  ++ ('"' :: (':' :: (jsonChars v ++ '}' :: rest)))) := by
            simp [jobjChars_cons, jobjRest, jstrChars]
          rw [harg, readMembers_step]
          simp [chompWs, jsonWsChar, strBody_render, chompWs_jsonChars, hv]
  | k, v, (k2, v2) :: ms, f, rest, hiv, hims, hf => by
      have hx : intNumsB v2 = true ∧ intNumsObj ms = true := by
        simpa [intNumsObj] using hims
      cases f with
      | zero => omega
      | succ f2 =>
          simp only [jobjChars_cons k v ((k2, v2) :: ms), jobjRest_cons,
                     List.length_append, List.length_cons] at hf
          have hfe : (jsonChars v).length < f2 := by
            simp only [jstrChars, List.length_cons, List.length_append] at hf
            omega
          have hfx : (jobjChars ((k2, v2) :: ms)).length + 1 < f2 := by
            simp only [jstrChars, List.length_cons, List.length_append] at hf
            omega
          have hv := rtVal v f2
            (',' :: (jobjChars ((k2, v2) :: ms) ++ '}' :: rest)) hiv hfe
            (numStop_of_head (by decide))
          have key := rtMembers k2 v2 ms f2 rest hx.1 hx.2 hfx
          have harg : jobjChars ((k, v) :: (k2, v2) :: ms) ++ '}' :: rest
              = '"' :: (k.data.flatMap jsonEscapeChar
                  ++ ('"' :: (':' :: (jsonChars v
                      ++ (',' :: (jobjChars ((k2, v2) :: ms) ++ '}' :: rest)))))) := by
            simp [jobjChars_cons k v ((k2, v2) :: ms), jobjRest_cons, jstrChars]
          have hexpand : jobjChars ((k2, v2) :: ms) ++ '}' :: rest
              = '"' :: (k2.data.flatMap jsonEscapeChar
                  ++ ('"' :: (':' :: (jsonChars v2 ++ (jobjRest ms ++ '}' :: rest))))) := by
            simp [jobjChars_cons, jstrChars]
          rw [hexpand] at key
          rw [harg, readMembers_step]
          simp [chompWs, jsonWsChar, strBody_render, chompWs_jsonChars, hv,
                chompWs_jobjChars, key]
termination_by k v ms _ _ _ _ _ => sizeOf v + sizeOf ms
end

/-- Full codec inverse of the JSON model: parsing a rendered value recovers
    it exactly (for integer-numbered values -- all the codec produces). -/
theorem parse_stringify (j : Json) (h : intNumsB j = true) :
    Json.parse (Json.stringify j) = some j := by
  have hv := rtVal j ((jsonChars j).length + 1) [] h (by omega) rfl
  rw [List.append_nil] at hv
  have hdata : (Json.stringify j).data = jsonChars j := rfl
  simp only [Json.parse, hdata, hv]
  simp [chompWs]

/-! ### Bytes: UTF-8 and base64 models (Node Buffer semantics) -/

/-- UTF-8 encoding of one Unicode scalar value. -/
def utf8Char (c : Char) : List Nat :=
  let n := c.toNat
  if n < 0x80 then [n]
  else if n < 0x800 then [0xC0 + n / 0x40, 0x80 + n % 0x40]
  else if n < 0x10000 then
    [0xE0 + n / 0x1000, 0x80 + n / 0x40 % 0x40, 0x80 + n % 0x40]
  else
    [0xF0 + n / 0x40000, 0x80 + n / 0x1000 % 0x40, 0x80 + n / 0x40 % 0x40,
     0x80 + n % 0x40]

/-- UTF-8 bytes of a string (model of Buffer.from(str, utf-8)). -/
def utf8Bytes (s : String) : List Nat := s.data.flatMap utf8Char

/-- Model of Buffer.byteLength(str, utf-8), the source's byteLength. -/
def byteLength (s : String) : Nat := (utf8Bytes s).length

/-- A UTF-8 continuation byte. -/
def contByte (b : Nat) : Bool := 0x80 ≤ b && b < 0xC0

/-- The U+FFFD replacement character a lenient decoder substitutes. -/
def repl : Char := '�'

/-- Decode step of a two-byte sequence, after its leading byte. -/
def utf8Two (b : Nat) : List Nat → Char × List Nat
  | b1 :: bs2 =>
    if contByte b1 then
      ((if 0x80 ≤ (b - 0xC0) * 0x40 + (b1 - 0x80)
        then Char.ofNat ((b - 0xC0) * 0x40 + (b1 - 0x80)) else repl), bs2)
    else (repl, bs2)
  | [] => (repl, [])

/-- Decode step of a three-byte sequence, after its leading byte. -/
def utf8Three (b : Nat) : List Nat → Char × List Nat
  | b1 :: b2 :: bs2 =>
    if contByte b1 && contByte b2 then
      ((if 0x800 ≤ (b - 0xE0) * 0x1000 + (b1 - 0x80) * 0x40 + (b2 - 0x80)
          ∧ ¬(0xD800 ≤ (b - 0xE0) * 0x1000 + (b1 - 0x80) * 0x40 + (b2 - 0x80)
              ∧ (b - 0xE0) * 0x1000 + (b1 - 0x80) * 0x40 + (b2 - 0x80) < 0xE000)
        then Char.ofNat ((b - 0xE0) * 0x1000 + (b1 - 0x80) * 0x40 + (b2 - 0x80))
        else repl), bs2)
    else (repl, bs2)
  | bs => (repl, bs.tail)

/-- Decode step of a four-byte sequence, after its leading byte. -/
def utf8Four (b : Nat) : List Nat → Char × List Nat
  | b1 :: b2 :: b3 :: bs2 =>
    if contByte b1 && contByte b2 && contByte b3 then
      ((if 0x10000 ≤ (b - 0xF0) * 0x40000 + (b1 - 0x80) * 0x1000
              + (b2 - 0x80) * 0x40 + (b3 - 0x80)
          ∧ (b - 0xF0) * 0x40000 + (b1 - 0x80) * 0x1000
              + (b2 - 0x80) * 0x40 + (b3 - 0x80) < 0x110000
        then Char.ofNat ((b - 0xF0) * 0x40000 + (b1 - 0x80) * 0x1000
              + (b2 - 0x80) * 0x40 + (b3 - 0x80))
        else repl), bs2)
    else (repl, bs2)
  | bs => (repl, bs.tail)

/-- One lenient decoding step: next character, remaining bytes.  Exact on
    well-formed UTF-8; on malformed input it substitutes U+FFFD and
    resynchronizes approximately (which nothing downstream depends on). -/
def utf8Step : List Nat → Char × List Nat
  | [] => (repl, [])
  | b :: bs =>
    if b < 0x80 then (Char.ofNat b, bs)
    else if b < 0xC0 then (repl, bs)
    else if b < 0xE0 then utf8Two b bs
    else if b < 0xF0 then utf8Three b bs
    else if b < 0xF8 then utf8Four b bs
    else (repl, bs)

theorem utf8Two_len (b : Nat) (bs : List Nat) :
    (utf8Two b bs).2.length ≤ bs.length := by
  rcases bs with _ | ⟨b1, bs2⟩
  · simp [utf8Two]
  · simp only [utf8Two]
    repeat' split
    all_goals simp

theorem utf8Three_len (b : Nat) (bs : List Nat) :
    (utf8Three b bs).2.length ≤ bs.length := by
  rcases bs with _ | ⟨b1, _ | ⟨b2, bs2⟩⟩
  · simp [utf8Three]
  · simp [utf8Three]
  · simp only [utf8Three]
    repeat' split
    all_goals simp
    all_goals omega

theorem utf8Four_len (b : Nat) (bs : List Nat) :
    (utf8Four b bs).2.length ≤ bs.length := by
  rcases bs with _ | ⟨b1, _ | ⟨b2, _ | ⟨b3, bs2⟩⟩⟩
  · simp [utf8Four]
  · simp [utf8Four]
  · simp [utf8Four]
  · simp only [utf8Four]
    repeat' split
    all_goals simp
    all_goals omega

theorem utf8Step_shrink (b : Nat) (bs : List Nat) :
    (utf8Step (b :: bs)).2.length < (b :: bs).length := by
  have h2 := utf8Two_len b bs
  have h3 := utf8Three_len b bs
  have h4 := utf8Four_len b bs
  simp only [utf8Step]
  repeat' split
  all_goals simp_all
  all_goals omega

/-- The lenient UTF-8 decoding loop, with structural fuel. -/
def utf8DecodeGo : Nat → List Nat → List Char
  | 0, _ => []
  | fuel + 1, l =>
    match l with
    | [] => []
    | b :: bs => (utf8Step (b :: bs)).1 :: utf8DecodeGo fuel (utf8Step (b :: bs)).2

/-- Lenient UTF-8 decoding (model of Buffer.toString with utf-8). -/
def utf8Decode (l : List Nat) : List Char := utf8DecodeGo l.length l

theorem utf8DecodeGo_eq_self : ∀ fuel l, l.length ≤ fuel →
    utf8DecodeGo fuel l = utf8Decode l := by
  intro fuel
  induction fuel using Nat.strongRecOn with
  | _ fuel ih =>
    intro l hle
    match l with
    | [] =>
      match fuel with
      | 0 => rfl
      | f + 1 => rfl
    | b :: bs =>
      match fuel, hle with
      | f + 1, hle =>
        have hs := utf8Step_shrink b bs
        conv_rhs => unfold utf8Decode
        simp only [utf8DecodeGo, List.length_cons]
        rw [ih f (by omega) _ (by simp at hs hle ⊢; omega),
            ih bs.length (by simp at hle; omega) _ (by simp at hs ⊢; omega)]

theorem utf8Decode_nil : utf8Decode [] = [] := rfl

/-- The recurrence of `utf8Decode`. -/
theorem utf8Decode_cons (b : Nat) (bs : List Nat) :
    utf8Decode (b :: bs)
      = (utf8Step (b :: bs)).1 :: utf8Decode (utf8Step (b :: bs)).2 := by
  have hs := utf8Step_shrink b bs
  conv_lhs => unfold utf8Decode
  simp only [utf8DecodeGo, List.length_cons]
  rw [utf8DecodeGo_eq_self bs.length _ (by simp at hs ⊢; omega)]

/-- The scalar-value bounds every `Char` satisfies. -/
theorem char_toNat_valid (c : Char) :
    c.toNat < 0xd800 ∨ (0xdfff < c.toNat ∧ c.toNat < 0x110000) := c.valid

/-- One decoding step undoes the encoding of one character. -/
theorem utf8Step_char (c : Char) (rest : List Nat) :
    utf8Step (utf8Char c ++ rest) = (c, rest) := by
  have hval := char_toNat_valid c
  by_cases h1 : c.toNat < 0x80
  · have e : utf8Char c = [c.toNat] := by simp [utf8Char, h1]
    rw [e, List.cons_append, List.nil_append]
    simp only [utf8Step]
    rw [if_pos h1, Char.ofNat_toNat]
  by_cases h2 : c.toNat < 0x800
  · have e : utf8Char c = [0xC0 + c.toNat / 0x40, 0x80 + c.toNat % 0x40] := by
      simp [utf8Char, h1, h2]
    rw [e]
    simp only [List.cons_append, List.nil_append, utf8Step]
    rw [if_neg (by omega), if_neg (by omega), if_pos (by omega)]
    simp only [utf8Two]
    rw [if_pos (by simp [contByte]; omega)]
    have hv : (0xC0 + c.toNat / 0x40 - 0xC0) * 0x40 + (0x80 + c.toNat % 0x40 - 0x80)
        = c.toNat := by omega
    rw [hv, if_pos (by omega), Char.ofNat_toNat]
  by_cases h3 : c.toNat < 0x10000
  · have e : utf8Char c
        = [0xE0 + c.toNat / 0x1000, 0x80 + c.toNat / 0x40 % 0x40,
           0x80 + c.toNat % 0x40] := by
      simp [utf8Char, h1, h2, h3]
    rw [e]
    simp only [List.cons_append, List.nil_append, utf8Step]
    rw [if_neg (by omega), if_neg (by omega), if_neg (by omega), if_pos (by omega)]
    simp only [utf8Three]
    rw [if_pos (by simp [contByte]; omega)]
    have hv : (0xE0 + c.toNat / 0x1000 - 0xE0) * 0x1000
        + (0x80 + c.toNat / 0x40 % 0x40 - 0x80) * 0x40
        + (0x80 + c.toNat % 0x40 - 0x80) = c.toNat := by omega
    rw [hv, if_pos (by omega), Char.ofNat_toNat]
  · have e : utf8Char c
        = [0xF0 + c.toNat / 0x40000, 0x80 + c.toNat / 0x1000 % 0x40,
           0x80 + c.toNat / 0x40 % 0x40, 0x80 + c.toNat % 0x40] := by
      simp [utf8Char, h1, h2, h3]
    rw [e]
    simp only [List.cons_append, List.nil_append, utf8Step]
    rw [if_neg (by omega), if_neg (by omega), if_neg (by omega), if_neg (by omega),
        if_pos (by omega)]
    simp only [utf8Four]
    rw [if_pos (by simp [contByte]; omega)]
    have hv : (0xF0 + c.toNat / 0x40000 - 0xF0) * 0x40000
        + (0x80 + c.toNat / 0x1000 % 0x40 - 0x80) * 0x1000
        + (0x80 + c.toNat / 0x40 % 0x40 - 0x80) * 0x40
        + (0x80 + c.toNat % 0x40 - 0x80) = c.toNat := by omega
    rw [hv, if_pos (by omega), Char.ofNat_toNat]

/-- Every encoded character is a nonempty byte run. -/
theorem utf8Char_cons (c : Char) : ∃ b bt, utf8Char c = b :: bt := by
  by_cases h1 : c.toNat < 0x80
  · exact ⟨c.toNat, [], by simp [utf8Char, h1]⟩
  by_cases h2 : c.toNat < 0x800
  · exact ⟨0xC0 + c.toNat / 0x40, [0x80 + c.toNat % 0x40], by simp [utf8Char, h1, h2]⟩
  by_cases h3 : c.toNat < 0x10000
  · exact ⟨0xE0 + c.toNat / 0x1000,
      [0x80 + c.toNat / 0x40 % 0x40, 0x80 + c.toNat % 0x40], by simp [utf8Char, h1, h2, h3]⟩
  · exact ⟨0xF0 + c.toNat / 0x40000,
      [0x80 + c.toNat / 0x1000 % 0x40, 0x80 + c.toNat / 0x40 % 0x40, 0x80 + c.toNat % 0x40],
      by simp [utf8Char, h1, h2, h3]⟩

/-- Decoding undoes encoding, one character at a time. -/
theorem utf8Decode_char (c : Char) (rest : List Nat) :
    utf8Decode (utf8Char c ++ rest) = c :: utf8Decode rest := by
  obtain ⟨b, bt, he⟩ := utf8Char_cons c
  have hstep := utf8Step_char c rest
  rw [he, List.cons_append] at hstep ⊢
  rw [utf8Decode_cons, hstep]

/-- Lenient decoding inverts encoding on character lists. -/
theorem utf8Decode_flat (cs : List Char) : utf8Decode (cs.flatMap utf8Char) = cs := by
  induction cs with
  | nil => rw [List.flatMap_nil, utf8Decode_nil]
  | cons c cs ih => rw [List.flatMap_cons, utf8Decode_char, ih]

/-- Lenient decoding inverts encoding on whole strings. -/
theorem utf8Decode_utf8Bytes (s : String) : utf8Decode (utf8Bytes s) = s.data :=
  utf8Decode_flat s.data

/-! ### Base64 (Node Buffer semantics: standard alphabet, lenient decode) -/

/-- The base64 alphabet character of a sextet. -/
def b64Char (n : Nat) : Char :=
  if n < 26 then Char.ofNat (65 + n)
  else if n < 52 then Char.ofNat (97 + (n - 26))
  else if n < 62 then Char.ofNat (48 + (n - 52))
  else if n = 62 then '+'
  else '/'

/-- Standard base64 encoding of a byte list, with padding. -/
def b64Encode : List Nat → List Char
  | [] => []
  | [a] => [b64Char (a / 4), b64Char (a % 4 * 16), '=', '=']
  | [a, b] => [b64Char (a / 4), b64Char (a % 4 * 16 + b / 16), b64Char (b % 16 * 4), '=']
  | a :: b :: c :: rest =>
      b64Char (a / 4) :: b64Char (a % 4 * 16 + b / 16) :: b64Char (b % 16 * 4 + c / 64)
        :: b64Char (c % 64) :: b64Encode rest

/-- Sextet value of an alphabet character (padding and noise have none). -/
def b64Val (c : Char) : Option Nat :=
  if 'A' ≤ c && c ≤ 'Z' then some (c.toNat - 65)
  else if 'a' ≤ c && c ≤ 'z' then some (c.toNat - 97 + 26)
  else if '0' ≤ c && c ≤ '9' then some (c.toNat - 48 + 52)
  else if c = '+' then some 62
  else if c = '/' then some 63
  else none

/-- The sextets of a base64 text, silently dropping every non-alphabet
    character (models Buffer's lenient base64 parsing). -/
def b64Sextets (cs : List Char) : List Nat := cs.filterMap b64Val

/-- Regroup sextets into bytes; a trailing lone sextet is dropped. -/
def b64Regroup : List Nat → List Nat
  | a :: b :: c :: d :: rest =>
      (a * 4 + b / 16) :: (b % 16 * 16 + c / 4) :: (c % 4 * 64 + d) :: b64Regroup rest
  | [a, b, c] => [a * 4 + b / 16, b % 16 * 16 + c / 4]
  | [a, b] => [a * 4 + b / 16]
  | [_] => []
  | [] => []

/-- Model of Buffer.from(text, base64): bytes of a base64 text. -/
def b64DecodeBytes (s : String) : List Nat := b64Regroup (b64Sextets s.data)

/-- The source's toBase64 (Buffer path): UTF-8 bytes, base64-encoded. -/
def toBase64 (s : String) : String := ⟨b64Encode (utf8Bytes s)⟩

/-- The source's fromBase64 (Buffer path): lenient base64 to bytes, then
    lenient UTF-8 to text. -/
def fromBase64 (s : String) : String := ⟨utf8Decode (b64DecodeBytes s)⟩

theorem b64Val_b64Char : ∀ n, n < 64 → b64Val (b64Char n) = some n := by decide

theorem b64Val_pad : b64Val '=' = none := by decide

/-- Base64 decode undoes encode on byte lists. -/
theorem b64_inverse : ∀ bs : List Nat, (∀ b ∈ bs, b < 256) →
    b64Regroup (b64Sextets (b64Encode bs)) = bs
  | [], _ => rfl
  | [a], h => by
      have ha : a < 256 := h a (by simp)
      have h1 : b64Val (b64Char (a / 4)) = some (a / 4) := b64Val_b64Char _ (by omega)
      have h2 : b64Val (b64Char (a % 4 * 16)) = some (a % 4 * 16) :=
        b64Val_b64Char _ (by omega)
      simp [b64Encode, b64Sextets, List.filterMap_cons, h1, h2, b64Val_pad, b64Regroup]
      omega
  | [a, b], h => by
      have ha : a < 256 := h a (by simp)
      have hb : b < 256 := h b (by simp)
      have h1 : b64Val (b64Char (a / 4)) = some (a / 4) := b64Val_b64Char _ (by omega)
      have h2 : b64Val (b64Char (a % 4 * 16 + b / 16)) = some (a % 4 * 16 + b / 16) :=
        b64Val_b64Char _ (by omega)
      have h3 : b64Val (b64Char (b % 16 * 4)) = some (b % 16 * 4) :=
        b64Val_b64Char _ (by omega)
      simp [b64Encode, b64Sextets, List.filterMap_cons, h1, h2, h3, b64Val_pad, b64Regroup]
      constructor <;> omega
  | a :: b :: c :: rest, h => by
      have ha : a < 256 := h a (by simp)
      have hb : b < 256 := h b (by simp)
      have hc : c < 256 := h c (by simp)
      have ih := b64_inverse rest (fun x hx => h x (by simp [hx]))
      have h1 : b64Val (b64Char (a / 4)) = some (a / 4) := b64Val_b64Char _ (by omega)
      have h2 : b64Val (b64Char (a % 4 * 16 + b / 16)) = some (a % 4 * 16 + b / 16) :=
        b64Val_b64Char _ (by omega)
      have h3 : b64Val (b64Char (b % 16 * 4 + c / 64)) = some (b % 16 * 4 + c / 64) :=
        b64Val_b64Char _ (by omega)
      have h4 : b64Val (b64Char (c % 64)) = some (c % 64) := b64Val_b64Char _ (by omega)
      have he : b64Encode (a :: b :: c :: rest)
          = b64Char (a / 4) :: b64Char (a % 4 * 16 + b / 16)
            :: b64Char (b % 16 * 4 + c / 64) :: b64Char (c % 64) :: b64Encode rest := rfl
      rw [he]
      unfold b64Sextets at ih ⊢
      simp only [List.filterMap_cons, h1, h2, h3, h4, b64Regroup, ih]
      simp only [List.cons.injEq]
      refine ⟨by omega, by omega, by omega, trivial⟩

/-- Every UTF-8 byte fits in one octet. -/
theorem utf8Char_lt256 (c : Char) : ∀ b ∈ utf8Char c, b < 256 := by
  have hval := char_toNat_valid c
  have hup : c.toNat < 0x110000 := by rcases hval with h | h <;> omega
  intro b hb
  by_cases h1 : c.toNat < 0x80
  · simp [utf8Char, h1] at hb; omega
  by_cases h2 : c.toNat < 0x800
  · simp [utf8Char, h1, h2] at hb; rcases hb with h | h <;> omega
  by_cases h3 : c.toNat < 0x10000
  · simp [utf8Char, h1, h2, h3] at hb; rcases hb with h | h | h <;> omega
  · simp [utf8Char, h1, h2, h3] at hb; rcases hb with h | h | h | h <;> omega

theorem utf8Bytes_lt256 (s : String) : ∀ b ∈ utf8Bytes s, b < 256 := by
  intro b hb
  rw [utf8Bytes, List.mem_flatMap] at hb
  obtain ⟨c, _, hbc⟩ := hb
  exact utf8Char_lt256 c b hbc

/-- The source's base64 round-trip: fromBase64 inverts toBase64. -/
theorem fromBase64_toBase64 (s : String) : fromBase64 (toBase64 s) = s := by
  have hd : (toBase64 s).data = b64Encode (utf8Bytes s) := rfl
  rw [fromBase64, b64DecodeBytes, hd, b64Sextets,
      show (b64Encode (utf8Bytes s)).filterMap b64Val = b64Sextets (b64Encode (utf8Bytes s)) from rfl,
      b64_inverse _ (utf8Bytes_lt256 s), utf8Decode_utf8Bytes]

/-! ### x402 constants and data model (src/x402.ts) -/

def DEFAULT_TIMEOUT_MS : Nat := 15000

def MAX_PAYMENT_HEADER_BYTES : Nat := 16384

def PAYMENT_HEADER_NAME : String := "X-Payment"

def DEFAULT_FACILITATOR_URL : String := "https://x402.kamiyo.ai"

/-- One payment offer a server will accept (interface X402PaymentRequirement). -/
structure X402PaymentRequirement where
  scheme : String
  network : String
  amount : String
  asset : String
  payTo : String
  resource : String
  description : Option String := none
  maxTimeoutSeconds : Option Nat := none
  extra : Option (List (String × Json)) := none

/-- The payload of a payment proof (interface X402PaymentProof.payload). -/
structure X402ProofPayload where
  signature : String
  amountHidden : Bool
  resource : String
  payTo : String
  sender : Option String := none

/-- A typed payment proof (interface X402PaymentProof). -/
structure X402PaymentProof where
  x402Version : Int
  scheme : String
  network : String
  payload : X402ProofPayload

/-- The function isShadowwire: the two accepted scheme spellings. -/
def isShadowwire (scheme : String) : Bool :=
  scheme == "shadowwire" || scheme == "shadow"

/-- The JSON value JSON.stringify serializes a typed proof to: members in
    the object-literal order of the source, an undefined sender omitted. -/
def proofToJson (p : X402PaymentProof) : Json :=
  .obj [("x402Version", .num ⟨p.x402Version, 0⟩),
        ("scheme", .str p.scheme),
        ("network", .str p.network),
        ("payload", .obj
          ([("signature", .str p.payload.signature),
            ("amountHidden", .bool p.payload.amountHidden),
            ("resource", .str p.payload.resource),
            ("payTo", .str p.payload.payTo)]
           ++ (match p.payload.sender with
               | some s => [("sender", .str s)]
               | none => [])))]

/-- X402Client.encodePaymentHeader: base64 of the canonical JSON form. -/
def encodePaymentHeader (p : X402PaymentProof) : String :=
  toBase64 (Json.stringify (proofToJson p))

/-- The version test decoded.x402Version === 2 (strict: a non-number or a
    missing member never equals the number 2). -/
def versionIs2 (j : Json) : Bool :=
  match jGet j "x402Version" with
  | some (.num n) => n.val == 2
  | _ => false

/-- X402Client.decodePaymentHeader: size cap first, then parse, then the
    version and required-member checks; every throwing path of the source
    is caught there, which this total embedding returns as `none`.  The
    result is the decoded JSON value (the source returns it behind an
    unchecked cast). -/
def decodePaymentHeader (header : String) : Option Json :=
  if byteLength header > MAX_PAYMENT_HEADER_BYTES then none
  else
    match Json.parse (fromBase64 header) with
    | none => none
    | some decoded =>
      if !versionIs2 decoded then none
      else if !jTruthyOpt (jGet decoded "scheme")
              || !jTruthyOpt ((jGet decoded "payload").bind (fun pl => jGet pl "signature"))
      then none
      else some decoded

/-- X402Client.parseRequirements: an object whose accepts member is an
    array parses (to itself, behind a cast); everything else is null.
    A JSON array reaches the member lookup in the source (typeof [] is
    object) and fails it, so it also lands on `none` here. -/
def parseRequirements (body : Json) : Option Json :=
  match body with
  | .obj ms =>
    match memberGet ms "accepts" with
    | some (.arr _) => some body
    | _ => none
  | _ => none

/-- X402Client.is402. -/
def is402 (status : Nat) (body : Json) : Bool :=
  status == 402 && (parseRequirements body).isSome

/-! ### The client orchestrator (class X402Client) -/

/-- The transfer capability's response (interface TransferResponse). -/
structure TransferResponse where
  success : Bool
  tx_signature : String
  amount_sent : Option ℚ
  amount_hidden : Bool
  proof_pda : String

/-- The arguments pay passes to the injected transfer capability (the
    opaque wallet handle carries no observable state and is omitted). -/
structure TransferArgs where
  sender : String
  recipient : String
  amount : ℚ
  token : String
  type : String

/-- The token-conversion capability behind the dynamic require of the
    tokens module (its file is not part of this snapshot; the two
    operations are those the source calls). -/
structure TokenUtilsModel where
  isValidToken : String → Bool
  fromSmallestUnit : Int → String → ℚ

/-- The constructed state of an X402Client (fields after the constructor's
    defaulting; `tokenUtils = none` models the dynamic require throwing). -/
structure X402ClientConfig where
  senderWallet : String
  defaultToken : String := "USDC"
  defaultTransferType : String := "external"
  maxRetries : Nat := 1
  headers : List (String × String) := []
  timeoutMs : Nat := DEFAULT_TIMEOUT_MS
  tokenUtils : Option TokenUtilsModel := none

/-- X402Client.resolveToken. -/
def resolveToken (cfg : X402ClientConfig) (asset : String) : String :=
  let upper := asset.toUpper
  match cfg.tokenUtils with
  | some tu => if upper ≠ "" && tu.isValidToken upper then upper else cfg.defaultToken
  | none => cfg.defaultToken

/-- JS parseInt(s, 10): skip whitespace, optional sign, maximal digit
    prefix; NaN (here `none`) without any digit. -/
def parseIntJS (s : String) : Option Int :=
  let core : List Char → Option Nat := fun cs =>
    let p := grabDigits cs
    if p.1 = [] then none else some (digitsNat p.1)
  match chompWs s.data with
  | '-' :: r => (core r).map (fun n => -(n : Int))
  | '+' :: r => (core r).map (fun n => (n : Int))
  | r => (core r).map (fun n => (n : Int))

/-- X402Client.parseAmount: smallest-unit integer to the transfer
    mechanism's native unit, 0 for unparsable or non-positive amounts. -/
def parseAmount (cfg : X402ClientConfig) (amountStr : String) (asset : String) : ℚ :=
  match parseIntJS amountStr with
  | none => 0
  | some raw =>
    if raw ≤ 0 then 0
    else
      match cfg.tokenUtils with
      | some tu => tu.fromSmallestUnit raw (resolveToken cfg asset)
      | none => mkRat raw 1000000

/-- A pay result (interface X402PaymentResult). -/
structure X402PaymentResult where
  success : Bool
  transfer : Option TransferResponse := none
  paymentHeader : Option String := none
  error : Option String := none

/-- The proof object pay constructs on a successful transfer. -/
def payProof (cfg : X402ClientConfig) (t : TransferResponse)
    (req : X402PaymentRequirement) : X402PaymentProof :=
  { x402Version := 2
    scheme := "shadowwire"
    network := "solana:mainnet"
    payload :=
      { signature := t.tx_signature
        amountHidden := t.amount_hidden
        resource := req.resource
        payTo := req.payTo
        sender := some cfg.senderWallet } }

/-- X402Client.pay, with the transfer capability injected (`Except.error`
    is a thrown exception, carried as its message) and the issued transfer
    calls returned alongside the result. -/
def pay (cfg : X402ClientConfig) (transferFn : TransferArgs → Except String TransferResponse)
    (req : X402PaymentRequirement) : X402PaymentResult × List TransferArgs :=
  if !isShadowwire req.scheme then
    ({ success := false, error := some ("Unsupported x402 payment scheme: " ++ req.scheme) }, [])
  else
    let amount := parseAmount cfg req.amount req.asset
    if amount ≤ 0 then
      ({ success := false, error := some "Invalid payment amount" }, [])
    else
      let args : TransferArgs :=
        { sender := cfg.senderWallet, recipient := req.payTo, amount := amount,
          token := resolveToken cfg req.asset, type := cfg.defaultTransferType }
      match transferFn args with
      | .error msg => ({ success := false, error := some msg }, [args])
      | .ok t =>
        if !t.success then
          ({ success := false, error := some "ShadowWire transfer failed" }, [args])
        else
          ({ success := true, transfer := some t,
             paymentHeader := some (encodePaymentHeader (payProof cfg t req)) }, [args])

/-- A fetch response, reduced to what request inspects: status, status
    text, and the value res.json() resolves to (`none`: it rejects). -/
structure FetchResponse where
  status : Nat
  statusText : String
  jsonBody : Option Json := none

/-- response.ok per the fetch standard. -/
def FetchResponse.isOk (r : FetchResponse) : Bool := 200 ≤ r.status && r.status ≤ 299

/-- What the runtime fetch does on the n-th call this request issues. -/
inductive RawFetch where
  | ok (r : FetchResponse)
  | abortError
  | failure (msg : String)

/-- X402Client.doFetch: wraps the n-th raw fetch outcome, translating an
    abort (the cooperative timeout firing) and any other rejection into
    the two NetworkError messages the source throws. -/
def doFetch (cfg : X402ClientConfig) (fetchFn : Nat → RawFetch) (i : Nat) :
    Except String FetchResponse :=
  match fetchFn i with
  | .ok r => .ok r
  | .abortError => .error ("x402 request timed out after " ++ toString cfg.timeoutMs ++ "ms")
  | .failure msg => .error ("x402 request failed: " ++ msg)

/-- safeParseBody: the parsed JSON body, undefined when parsing rejects. -/
def safeParseBody (r : FetchResponse) : Option Json := r.jsonBody

/-- JS string-or: the left operand unless it is falsy (empty). -/
def jsStrOr (a : Option String) (b : String) : String :=
  match a with
  | some s => if s = "" then b else s
  | none => b

/-- The .length read in `!x402Body?.accepts?.length` (arrays and strings
    have one; objects may carry a member; other primitives give
    undefined). -/
def jsLengthVal (j : Json) : Option Json :=
  match j with
  | .arr l => some (.num ⟨(l.length : Int), 0⟩)
  | .str s => some (.num ⟨(s.length : Int), 0⟩)
  | .obj ms => memberGet ms "length"
  | _ => none

/-- Truthiness of `x402Body?.accepts?.length`. -/
def acceptsHasLength (body : Option Json) : Bool :=
  match body with
  | none => false
  | some b =>
    match jGet b "accepts" with
    | none => false
    | some (.null) => false
    | some a => jTruthyOpt (jsLengthVal a)

/-- accepts.find((r) => isShadowwire(r.scheme)): first matching element;
    reading .scheme of a null element throws a TypeError. -/
def findCompatible : List Json → Except String (Option Json)
  | [] => .ok none
  | e :: es =>
    match e with
    | .null => .error "TypeError: Cannot read properties of null"
    | _ =>
      if (match jGet e "scheme" with
          | some (.str s) => isShadowwire s
          | _ => false)
      then .ok (some e)
      else findCompatible es

/-- The unchecked `as X402PaymentRequirement` cast on a found offer: its
    members read as strings (an exotic non-string member reads as empty,
    which no theorem's conclusion depends on). -/
def strOfJson : Option Json → String
  | some (.str s) => s
  | _ => ""

def reqOfJson (j : Json) : X402PaymentRequirement :=
  { scheme := strOfJson (jGet j "scheme")
    network := strOfJson (jGet j "network")
    amount := strOfJson (jGet j "amount")
    asset := strOfJson (jGet j "asset")
    payTo := strOfJson (jGet j "payTo")
    resource := strOfJson (jGet j "resource") }

/-- A request result (interface X402RequestResult). -/
structure X402RequestResult where
  success : Bool
  data : Option Json := none
  payment : Option (TransferResponse × X402PaymentRequirement) := none
  error : Option String := none
  statusCode : Nat

/-- The retry loop of request: `fuel` counts the attempts left including
    the current one (`maxRetries + 1` at entry), `i` the next fetch call
    index.  The guard `attempt < maxRetries` of the source is `1 ≤ fuel`
    after the current attempt is taken off.  The backoff sleep only delays
    and is not otherwise observable. -/
def retryLoop (cfg : X402ClientConfig) (fetchFn : Nat → RawFetch)
    (t : TransferResponse) (req : X402PaymentRequirement) :
    Nat → Nat → Except String X402RequestResult
  | 0, _ => .ok { success := false, error := some "Unexpected error", statusCode := 500 }
  | fuel + 1, i =>
    match doFetch cfg fetchFn i with
    | .error e => .error e
    | .ok res =>
      if res.isOk then
        .ok { success := true, data := safeParseBody res,
              payment := some (t, req), statusCode := res.status }
      else if res.status == 402 then
        .ok { success := false, error := some "Payment not accepted by server",
              statusCode := 402 }
      else if 1 ≤ fuel && 500 ≤ res.status then
        retryLoop cfg fetchFn t req fuel (i + 1)
      else
        .ok { success := false,
              error := some ("HTTP " ++ toString res.status ++ " after payment"),
              statusCode := res.status }

/-- X402Client.request: the full challenge-pay-retry flow.  The returned
    `Except.error` is an exception escaping request (its message); `.ok`
    is the structured result the caller receives. -/
def request (cfg : X402ClientConfig) (fetchFn : Nat → RawFetch)
    (transferFn : TransferArgs → Except String TransferResponse) :
    Except String X402RequestResult :=
  match doFetch cfg fetchFn 0 with
  | .error e => .error e
  | .ok initial =>
    if initial.status != 402 then
      if !initial.isOk then
        .ok { success := false,
              error := some ("HTTP " ++ toString initial.status ++ ": " ++ initial.statusText),
              statusCode := initial.status }
      else
        .ok { success := true, data := safeParseBody initial, statusCode := initial.status }
    else
      let x402Body := safeParseBody initial
      if !acceptsHasLength x402Body then
        .ok { success := false, error := some "No accepted payment methods in 402 response",
              statusCode := 402 }
      else
        match x402Body with
        | none => .error "TypeError: accepts.find is not a function"
        | some b =>
          match jGet b "accepts" with
          | some (.arr l) =>
            match findCompatible l with
            | .error e => .error e
            | .ok none =>
              .ok { success := false,
                    error := some "No compatible payment option (need ShadowWire)",
                    statusCode := 402 }
            | .ok (some offer) =>
              let req := reqOfJson offer
              let pr := (pay cfg transferFn req).1
              match pr.success, pr.transfer, pr.paymentHeader with
              | true, some t, some _ => retryLoop cfg fetchFn t req (cfg.maxRetries + 1) 1
              | _, _, _ =>
                .ok { success := false, error := some (jsStrOr pr.error "Payment failed"),
                      statusCode := 402 }
          | _ => .error "TypeError: accepts.find is not a function"

/-! ### The paywall gate (x402Paywall) and its collaborators -/

/-- JS number-or with a default (0 is falsy). -/
def jsNatOr (a : Option Nat) (b : Nat) : Nat :=
  match a with
  | some n => if n = 0 then b else n
  | none => b

/-- JS string-or over two possibly-absent strings. -/
def jsOptStrOr (a b : Option String) : Option String :=
  match a with
  | some s => if s = "" then b else some s
  | none => b

/-- The info record passed to the post-payment callback. -/
structure PaymentCbInfo where
  payer : String
  amount : ℚ
  signature : String
  resource : String

/-- Configuration of the paywall middleware (interface
    X402MiddlewareConfig); the callback may throw (`Except.error`). -/
structure X402MiddlewareConfig where
  payTo : String
  amount : ℚ
  asset : Option String := none
  description : Option String := none
  maxTimeoutSeconds : Option Nat := none
  facilitatorUrl : Option String := none
  apiKey : String
  additionalSchemes : Option (List X402PaymentRequirement) := none
  onPayment : Option (PaymentCbInfo → Except String Unit) := none

/-- The 402 challenge body (interface X402Response as the middleware
    builds it, plus the two diagnostic members it may attach). -/
structure X402ResponseBody where
  x402Version : Nat
  accepts : List X402PaymentRequirement
  error : Option String
  facilitator : String
  resourceUrl : String
  resourceDescription : Option String
  resourceMimeType : Option String
  verifyError : Option String := none
  settleError : Option String := none

/-- createPaymentRequired: the challenge document for a resource. -/
def createPaymentRequired (resource : String) (config : X402MiddlewareConfig) :
    X402ResponseBody :=
  let amount := toString (⌊config.amount * 1000000⌋ : Int)
  { x402Version := 2
    accepts :=
      [{ scheme := "shadowwire"
         network := "solana:mainnet"
         amount := amount
         asset := jsStrOr config.asset "USDC"
         payTo := config.payTo
         resource := resource
         description := config.description
         maxTimeoutSeconds := some (jsNatOr config.maxTimeoutSeconds 60)
         extra := some [("transferTypes", .arr [.str "internal", .str "external"]),
                        ("amountHidden", .bool true)] }]
      ++ (config.additionalSchemes.getD [])
    error := some "Payment Required"
    facilitator := jsStrOr config.facilitatorUrl DEFAULT_FACILITATOR_URL
    resourceUrl := resource
    resourceDescription := config.description
    resourceMimeType := some "application/json" }

/-- A facilitator verify result (interface X402VerifyResult). -/
structure X402VerifyResult where
  valid : Bool
  payer : Option String := none
  amount : Option String := none
  resource : Option String := none
  balance : Option ℚ := none
  sufficient : Option Bool := none
  error : Option String := none

/-- A facilitator settle result (the settlePayment return shape). -/
structure SettleResult where
  success : Bool
  txHash : Option String := none
  amount : Option ℚ := none
  fee : Option ℚ := none
  net : Option ℚ := none
  network : Option String := none
  error : Option String := none

/-- One facilitator call as the gate issues it. -/
structure FacilitatorCall where
  paymentHeader : String
  requirement : X402PaymentRequirement
  facilitatorUrl : String
  apiKey : String

/-- What the gate saw of the inbound request. -/
structure GateRequest where
  path : Option String := none
  url : Option String := none
  xPaymentLower : Option String := none
  xPaymentUpper : Option String := none

/-- The HTTP response the gate produced (none: it passed through). -/
structure GateResponse where
  status : Option Nat := none
  headers : List (String × String) := []
  challengeBody : Option X402ResponseBody := none
  errorBody : Option String := none

/-- The payment metadata the gate attaches to the request context. -/
structure ReqX402 where
  payer : Option String
  txHash : Option String
  amount : Option ℚ
  fee : Option ℚ
  net : Option ℚ
  network : Option String
  scheme : String

/-- The complete observable outcome of one middleware invocation. -/
structure GateOutcome where
  res : GateResponse
  verifyCalls : List FacilitatorCall
  settleCalls : List FacilitatorCall
  x402Ctx : Option ReqX402 := none
  callbackError : Option String := none
  nextCalled : Bool

/-- x402Paywall: the per-request gate, with the facilitator's verify and
    settle endpoints injected as oracles.  The middleware function itself
    never throws: every branch returns an outcome, and the post-payment
    callback's exception is swallowed (recorded here as `callbackError`,
    which the response never carries). -/
def x402Paywall (config : X402MiddlewareConfig)
    (verifyFn : FacilitatorCall → X402VerifyResult)
    (settleFn : FacilitatorCall → SettleResult)
    (req : GateRequest) : GateOutcome :=
  let resource := jsStrOr (jsOptStrOr req.path req.url) "/"
  let challengeHeaders : List (String × String) :=
    [("WWW-Authenticate", "X402"), ("Vary", PAYMENT_HEADER_NAME),
     ("Cache-Control", "no-store")]
  let noHeader : GateOutcome :=
    { res := { status := some 402
               headers := [("WWW-Authenticate", "X402"), ("X-Payment-Schemes", "shadowwire"),
                           ("Vary", PAYMENT_HEADER_NAME), ("Cache-Control", "no-store")]
               challengeBody := some (createPaymentRequired resource config) }
      verifyCalls := [], settleCalls := [], nextCalled := false }
  match jsOptStrOr req.xPaymentLower req.xPaymentUpper with
  | none => noHeader
  | some ph =>
    if ph = "" then noHeader
    else if byteLength ph > MAX_PAYMENT_HEADER_BYTES then
      { res := { status := some 400
                 errorBody := some ("Payment header exceeds size limit ("
                    ++ toString (byteLength ph) ++ " bytes)") }
        verifyCalls := [], settleCalls := [], nextCalled := false }
    else
      let proofSchemeOk : Option Json → Bool := fun p =>
        match p with
        | some proof =>
          match jGet proof "scheme" with
          | some (.str s) => isShadowwire s
          | _ => false
        | none => false
      let decoded := decodePaymentHeader ph
      if !proofSchemeOk decoded then
        { res := { status := some 402
                   headers := challengeHeaders
                   challengeBody := some
                     { createPaymentRequired resource config with
                       verifyError := some "Invalid or unsupported payment proof" } }
          verifyCalls := [], settleCalls := [], nextCalled := false }
      else
        match decoded with
        | none =>
          { res := { status := some 402
                     headers := challengeHeaders
                     challengeBody := some
                       { createPaymentRequired resource config with
                         verifyError := some "Invalid or unsupported payment proof" } }
            verifyCalls := [], settleCalls := [], nextCalled := false }
        | some proof =>
          let amount := toString (⌊config.amount * 1000000⌋ : Int)
          let requirement : X402PaymentRequirement :=
            { scheme := "shadowwire"
              network := "solana:mainnet"
              amount := amount
              asset := jsStrOr config.asset "USDC"
              payTo := config.payTo
              resource := resource
              description := config.description
              maxTimeoutSeconds := some (jsNatOr config.maxTimeoutSeconds 60) }
          let payloadResource := (jGet proof "payload").bind (fun pl => jGet pl "resource")
          if (match payloadResource with
              | some v => jTruthy v && (match v with
                  | .str s => decide (s ≠ resource)
                  | _ => true)
              | none => false) then
            { res := { status := some 402
                       headers := challengeHeaders
                       challengeBody := some
                         { createPaymentRequired resource config with
                           verifyError := some "Payment proof resource mismatch" } }
              verifyCalls := [], settleCalls := [], nextCalled := false }
          else
            let facilitator := jsStrOr config.facilitatorUrl DEFAULT_FACILITATOR_URL
            let vcall : FacilitatorCall :=
              { paymentHeader := ph, requirement := requirement,
                facilitatorUrl := facilitator, apiKey := config.apiKey }
            let verifyResult := verifyFn vcall
            if !verifyResult.valid then
              { res := { status := some 402
                         headers := challengeHeaders
                         challengeBody := some
                           { createPaymentRequired resource config with
                             verifyError := verifyResult.error } }
                verifyCalls := [vcall], settleCalls := [], nextCalled := false }
            else
              let scall : FacilitatorCall :=
                { paymentHeader := ph, requirement := requirement,
                  facilitatorUrl := facilitator, apiKey := config.apiKey }
              let settleResult := settleFn scall
              if !settleResult.success then
                { res := { status := some 402
                           headers := challengeHeaders
                           challengeBody := some
                             { createPaymentRequired resource config with
                               settleError := settleResult.error } }
                  verifyCalls := [vcall], settleCalls := [scall], nextCalled := false }
              else
                let ctx : ReqX402 :=
                  { payer := verifyResult.payer, txHash := settleResult.txHash,
                    amount := settleResult.amount, fee := settleResult.fee,
                    net := settleResult.net, network := settleResult.network,
                    scheme := "shadowwire" }
                let cbErr : Option String :=
                  match config.onPayment, verifyResult.payer, settleResult.txHash with
                  | some f, some payer, some tx =>
                    if payer ≠ "" ∧ tx ≠ "" then
                      match f { payer := payer, amount := config.amount,
                                signature := tx, resource := resource } with
                      | .error e => some e
                      | .ok _ => none
                    else none
                  | _, _, _ => none
                { res := {}
                  verifyCalls := [vcall], settleCalls := [scall],
                  x402Ctx := some ctx, callbackError := cbErr, nextCalled := true }

/-! ### Concrete inputs used by the witness runs -/

/-- A small well-formed proof. -/
def pSmall : X402PaymentProof :=
  { x402Version := 2, scheme := "shadowwire", network := "solana:mainnet",
    payload := { signature := "s", amountHidden := false, resource := "/r", payTo := "m" } }

/-- A well-formed proof whose signature is 20000 characters, so its
    encoded header exceeds the size cap. -/
def bigProof : X402PaymentProof :=
  { x402Version := 2, scheme := "shadowwire", network := "solana:mainnet",
    payload := { signature := ⟨List.replicate 20000 'a'⟩, amountHidden := true,
                 resource := "/r", payTo := "m" } }

/-- A well-formed proof bound to the resource /other. -/
def pMis : X402PaymentProof :=
  { x402Version := 2, scheme := "shadowwire", network := "solana:mainnet",
    payload := { signature := "s", amountHidden := true, resource := "/other", payTo := "m" } }

/-- A well-formed proof bound to the resource /r. -/
def pOk : X402PaymentProof :=
  { x402Version := 2, scheme := "shadowwire", network := "solana:mainnet",
    payload := { signature := "s", amountHidden := true, resource := "/r", payTo := "m" } }

/-- A minimal gate configuration. -/
def gateCfg : X402MiddlewareConfig := { payTo := "m", amount := 1, apiKey := "k" }

/-- The gate configuration whose post-payment callback always throws. -/
def gateCfgThrow : X402MiddlewareConfig :=
  { payTo := "m", amount := 1, apiKey := "k",
    onPayment := some (fun _ => .error "boom") }

/-- A 20000-byte header, over the size cap. -/
def hdrBig : String := ⟨List.replicate 20000 'a'⟩

/-! ### The claims -/

/-- C3: fail-closed decode.  decodePaymentHeader returns the explicit
    invalid marker (none, never a thrown exception: the embedding of the
    catch-all is total) for every header that exceeds 16384 bytes, or does
    not decode to valid structured data, or carries a protocol version
    other than 2, or lacks a truthy scheme or payload.signature. -/
theorem decode_fail_closed (header : String)
    (h : byteLength header > MAX_PAYMENT_HEADER_BYTES
       ∨ Json.parse (fromBase64 header) = none
       ∨ (∃ j, Json.parse (fromBase64 header) = some j ∧ versionIs2 j = false)
       ∨ (∃ j, Json.parse (fromBase64 header) = some j ∧
            (jTruthyOpt (jGet j "scheme") = false
             ∨ jTruthyOpt ((jGet j "payload").bind (fun pl => jGet pl "signature")) = false))) :
    decodePaymentHeader header = none := by
  by_cases hb : byteLength header > MAX_PAYMENT_HEADER_BYTES
  · simp [decodePaymentHeader, hb]
  · rcases h with h | h | ⟨j, hj, hv⟩ | ⟨j, hj, hf⟩
    · exact absurd h hb
    · simp [decodePaymentHeader, hb, h]
    · simp [decodePaymentHeader, hb, hj, hv]
    · rcases hf with hf | hf
      · by_cases hv2 : versionIs2 j
        · simp [decodePaymentHeader, hb, hj, hv2, hf]
        · simp [decodePaymentHeader, hb, hj, hv2]
      · by_cases hv2 : versionIs2 j
        · simp [decodePaymentHeader, hb, hj, hv2, hf]
        · simp [decodePaymentHeader, hb, hj, hv2]

/-- Witness for C3: a header that is not structured data decodes to the
    invalid marker. -/
theorem decode_fail_closed_witness :
    Json.parse (fromBase64 "%%") = none ∧ decodePaymentHeader "%%" = none :=
  ⟨rfl, decode_fail_closed "%%" (Or.inr (Or.inl rfl))⟩

/-- C4 counterexample: a body whose offers list is present but EMPTY is
    still parsed to a challenge document (the claim says it must be the
    null marker). -/
theorem parseRequirements_empty_offers_parses :
    parseRequirements (.obj [("accepts", .arr [])])
      = some (.obj [("accepts", .arr [])]) := rfl

/-- C4 (amended): parseRequirements returns a document exactly for a body
    that is an object carrying an array (possibly empty) under accepts,
    and the document is that body itself; every other body gives the
    null marker.  It never throws: the embedding is total. -/
theorem parseRequirements_iff (body r : Json) :
    parseRequirements body = some r ↔
      r = body ∧ ∃ ms l, body = Json.obj ms ∧ memberGet ms "accepts" = some (Json.arr l) := by
  constructor
  · intro h
    cases body with
    | obj ms =>
        cases hm : memberGet ms "accepts" with
        | none => simp [parseRequirements, hm] at h
        | some v =>
            cases v with
            | arr l =>
                simp only [parseRequirements, hm] at h
                cases h
                exact ⟨rfl, ms, l, rfl, hm⟩
            | null => simp [parseRequirements, hm] at h
            | bool b => simp [parseRequirements, hm] at h
            | num n => simp [parseRequirements, hm] at h
            | str s => simp [parseRequirements, hm] at h
            | obj ms2 => simp [parseRequirements, hm] at h
    | null => simp [parseRequirements] at h
    | bool b => simp [parseRequirements] at h
    | num n => simp [parseRequirements] at h
    | str s => simp [parseRequirements] at h
    | arr l => simp [parseRequirements] at h
  · rintro ⟨rfl, ms, l, rfl, hm⟩
    simp [parseRequirements, hm]

/-- C5 counterexample: a challenge document with the foreign protocol
    version 99 still parses, and is402 accepts it at status 402 (the claim
    says a foreign version must make it unparsable). -/
theorem foreign_version_challenge_accepted :
    parseRequirements
        (.obj [("x402Version", .num ⟨99, 0⟩),
               ("accepts", .arr [.obj [("scheme", .str "shadowwire")]])])
      = some (.obj [("x402Version", .num ⟨99, 0⟩),
                    ("accepts", .arr [.obj [("scheme", .str "shadowwire")]])])
    ∧ is402 402
        (.obj [("x402Version", .num ⟨99, 0⟩),
               ("accepts", .arr [.obj [("scheme", .str "shadowwire")]])]) = true :=
  ⟨rfl, rfl⟩

/-- C5 (amended): parseRequirements never consults the version member; a
    body whose version differs from 2 but carries an accepts array parses
    to a document, and is402 holds for it at status 402. -/
theorem parseRequirements_ignores_version (v : JNum) (ms : List (String × Json))
    (l : List Json)
    (_hv : memberGet ms "x402Version" = some (.num v)) (_hne : v.val ≠ 2)
    (ha : memberGet ms "accepts" = some (.arr l)) :
    parseRequirements (.obj ms) = some (.obj ms) ∧ is402 402 (.obj ms) = true := by
  have h1 : parseRequirements (.obj ms) = some (.obj ms) := by
    simp [parseRequirements, ha]
  exact ⟨h1, by simp [is402, h1]⟩

/-- Witness for C5 (amended), at version 99. -/
theorem parseRequirements_ignores_version_witness :
    parseRequirements (.obj [("x402Version", .num ⟨99, 0⟩), ("accepts", .arr [])])
      = some (.obj [("x402Version", .num ⟨99, 0⟩), ("accepts", .arr [])])
    ∧ is402 402 (.obj [("x402Version", .num ⟨99, 0⟩), ("accepts", .arr [])]) = true :=
  parseRequirements_ignores_version ⟨99, 0⟩ _ [] rfl (by decide) rfl

/-- C8: pay rejects a requirement whose scheme is not a supported
    identifier immediately: the result is the structured scheme failure,
    it is the same for every transfer capability and every amount string
    (so the check precedes amount parsing and any transfer call), and the
    transfer call list is empty. -/
theorem pay_unsupported_scheme_rejected (cfg : X402ClientConfig)
    (transferFn : TransferArgs → Except String TransferResponse)
    (req : X402PaymentRequirement) (h : isShadowwire req.scheme = false) :
    pay cfg transferFn req
      = ({ success := false,
           error := some ("Unsupported x402 payment scheme: " ++ req.scheme) }, []) := by
  simp [pay, h]

/-- Witness for C8: a lone offer with scheme other is rejected with the
    no-compatible-scheme error and zero transfer calls. -/
theorem pay_unsupported_scheme_rejected_witness :
    isShadowwire "other" = false ∧
    pay { senderWallet := "wallet1" } (fun _ => .error "transfer must not run")
        { scheme := "other", network := "solana:mainnet", amount := "10000",
          asset := "USDC", payTo := "merchant", resource := "/api/data" }
      = ({ success := false,
           error := some ("Unsupported x402 payment scheme: " ++ "other") }, []) :=
  ⟨by decide,
   pay_unsupported_scheme_rejected { senderWallet := "wallet1" } _ _ (by decide)⟩

/-- C10: whenever pay succeeds, the proof it encodes into the payment
    header carries version 2, scheme shadowwire, network solana:mainnet,
    the transfer's signature and hidden-amount flag, the requirement's
    resource and payTo, and the configured sender -- whatever scheme
    alias or network the requirement itself stated. -/
theorem pay_success_binds_proof (cfg : X402ClientConfig)
    (transferFn : TransferArgs → Except String TransferResponse)
    (req : X402PaymentRequirement)
    (h : (pay cfg transferFn req).1.success = true) :
    ∃ t : TransferResponse,
      (pay cfg transferFn req).1.transfer = some t ∧
      (pay cfg transferFn req).1.paymentHeader
        = some (encodePaymentHeader
            { x402Version := 2
              scheme := "shadowwire"
              network := "solana:mainnet"
              payload :=
                { signature := t.tx_signature
                  amountHidden := t.amount_hidden
                  resource := req.resource
                  payTo := req.payTo
                  sender := some cfg.senderWallet } }) := by
  by_cases hs : isShadowwire req.scheme = true
  · by_cases ha : parseAmount cfg req.amount req.asset ≤ 0
    · simp [pay, hs, ha] at h
    · cases ht : transferFn (TransferArgs.mk cfg.senderWallet req.payTo
          (parseAmount cfg req.amount req.asset) (resolveToken cfg req.asset)
          cfg.defaultTransferType) with
      | error msg => simp [pay, hs, ha, ht] at h
      | ok t =>
        by_cases hts : t.success = true
        · exact ⟨t, by simp [pay, hs, ha, ht, hts, payProof]⟩
        · simp [pay, hs, ha, ht, hts] at h
  · simp [pay, hs] at h

/-- Witness for C10: a successful concrete pay run yields the bound
    proof header. -/
theorem pay_success_binds_proof_witness :
    ((pay { senderWallet := "wallet1" }
        (fun _ => .ok { success := true, tx_signature := "sig123", amount_sent := none,
                        amount_hidden := true, proof_pda := "pda" })
        { scheme := "shadowwire", network := "solana:mainnet", amount := "10000",
          asset := "USDC", payTo := "merchant", resource := "/api/data" }).1.success = true)
    ∧ ∃ t : TransferResponse,
        (pay { senderWallet := "wallet1" }
          (fun _ => .ok { success := true, tx_signature := "sig123", amount_sent := none,
                          amount_hidden := true, proof_pda := "pda" })
          { scheme := "shadowwire", network := "solana:mainnet", amount := "10000",
            asset := "USDC", payTo := "merchant", resource := "/api/data" }).1.transfer = some t ∧
        (pay { senderWallet := "wallet1" }
          (fun _ => .ok { success := true, tx_signature := "sig123", amount_sent := none,
                          amount_hidden := true, proof_pda := "pda" })
          { scheme := "shadowwire", network := "solana:mainnet", amount := "10000",
            asset := "USDC", payTo := "merchant", resource := "/api/data" }).1.paymentHeader
          = some (encodePaymentHeader
              { x402Version := 2
                scheme := "shadowwire"
                network := "solana:mainnet"
                payload :=
                  { signature := t.tx_signature
                    amountHidden := t.amount_hidden
                    resource := "/api/data"
                    payTo := "merchant"
                    sender := some "wallet1" } }) :=
  ⟨by decide, pay_success_binds_proof _ _ _ (by decide)⟩

/-! ### Shared helper: decoding inverts encoding under the size cap -/

/-- The canonical JSON form of a typed proof carries only exponent-zero
    numbers, so the renderer and reader preserve it exactly. -/
theorem intNums_proofToJson (p : X402PaymentProof) :
    intNumsB (proofToJson p) = true := by
  cases hsnd : p.payload.sender <;>
    simp [proofToJson, intNumsB, intNumsArr, intNumsObj, hsnd]

/-- Reading x402Version off the canonical proof object. -/
theorem proofToJson_version (p : X402PaymentProof) :
    jGet (proofToJson p) "x402Version" = some (.num ⟨p.x402Version, 0⟩) := by
  simp [proofToJson, jGet, memberGet]

/-- Reading scheme off the canonical proof object. -/
theorem proofToJson_scheme (p : X402PaymentProof) :
    jGet (proofToJson p) "scheme" = some (.str p.scheme) := by
  simp [proofToJson, jGet, memberGet]

/-- Reading payload.signature off the canonical proof object. -/
theorem proofToJson_signature (p : X402PaymentProof) :
    (jGet (proofToJson p) "payload").bind (fun pl => jGet pl "signature")
      = some (.str p.payload.signature) := by
  cases hsnd : p.payload.sender <;>
    simp [proofToJson, jGet, memberGet, hsnd]

/-- Decoding inverts encoding for every proof of version 2 with a
    non-empty scheme and signature whose encoded header respects the size
    cap (the result is the canonical JSON form the source's cast merely
    relabels). -/
theorem decode_encode (p : X402PaymentProof)
    (hv : p.x402Version = 2)
    (hs : p.scheme ≠ "")
    (hsig : p.payload.signature ≠ "")
    (hlen : ¬ byteLength (encodePaymentHeader p) > MAX_PAYMENT_HEADER_BYTES) :
    decodePaymentHeader (encodePaymentHeader p) = some (proofToJson p) := by
  have hparse : Json.parse (fromBase64 (encodePaymentHeader p)) = some (proofToJson p) := by
    rw [encodePaymentHeader, fromBase64_toBase64]
    exact parse_stringify _ (intNums_proofToJson p)
  have hver : versionIs2 (proofToJson p) = true := by
    rw [versionIs2, proofToJson_version p, hv]
    decide
  rw [decodePaymentHeader, if_neg hlen, hparse]
  simp [hver, jTruthyOpt, proofToJson_scheme p, proofToJson_signature p, jTruthy, hs, hsig]

/-! ### Length bounds feeding the size-cap counterexample -/

/-- Every character costs at least one UTF-8 byte. -/
theorem utf8Char_len_pos (c : Char) : 1 ≤ (utf8Char c).length := by
  simp only [utf8Char]
  repeat' split
  all_goals simp

/-- A string has at least as many UTF-8 bytes as characters. -/
theorem flatMap_utf8_len (cs : List Char) : cs.length ≤ (cs.flatMap utf8Char).length := by
  induction cs with
  | nil => simp
  | cons c cs ih =>
    have := utf8Char_len_pos c
    simp only [List.flatMap_cons, List.length_append, List.length_cons]
    omega

/-- byteLength dominates the character count. -/
theorem byteLength_ge_len (s : String) : s.data.length ≤ byteLength s :=
  flatMap_utf8_len s.data

/-- Base64 never shrinks: the text has at least one character per input
    byte. -/
theorem b64Encode_len (bs : List Nat) : bs.length ≤ (b64Encode bs).length := by
  match bs with
  | [] => simp [b64Encode]
  | [a] => simp [b64Encode]
  | [a, b] => simp [b64Encode]
  | a :: b :: c :: rest =>
    have ih := b64Encode_len rest
    simp only [b64Encode, List.length_cons]
    omega

/-- Escaping never erases a character. -/
theorem jsonEscapeChar_len_pos (c : Char) : 1 ≤ (jsonEscapeChar c).length := by
  simp only [jsonEscapeChar]
  repeat' split
  all_goals simp

/-- An escaped body is at least as long as its source. -/
theorem escape_flat_len (cs : List Char) : cs.length ≤ (cs.flatMap jsonEscapeChar).length := by
  induction cs with
  | nil => simp
  | cons c cs ih =>
    have := jsonEscapeChar_len_pos c
    simp only [List.flatMap_cons, List.length_append, List.length_cons]
    omega

/-- The rendered proof object is at least as long as the signature it
    embeds. -/
theorem stringify_sig_len (p : X402PaymentProof) :
    p.payload.signature.data.length ≤ (Json.stringify (proofToJson p)).data.length := by
  have h := escape_flat_len p.payload.signature.data
  simp only [List.length_flatMap] at h
  have hlen : p.payload.signature.length = p.payload.signature.data.length := rfl
  cases hsnd : p.payload.sender <;>
    simp [Json.stringify, proofToJson, jsonChars, jobjChars, jobjRest, jstrChars, hsnd] <;>
    omega

/-- A proof whose signature is longer than the cap encodes over the cap. -/
theorem encode_big_oversize (p : X402PaymentProof)
    (h : MAX_PAYMENT_HEADER_BYTES < p.payload.signature.data.length) :
    byteLength (encodePaymentHeader p) > MAX_PAYMENT_HEADER_BYTES := by
  have h1 := stringify_sig_len p
  have h2 := byteLength_ge_len (Json.stringify (proofToJson p))
  have h3 : byteLength (Json.stringify (proofToJson p))
      = (utf8Bytes (Json.stringify (proofToJson p))).length := rfl
  have h4 := b64Encode_len (utf8Bytes (Json.stringify (proofToJson p)))
  have h5 : (encodePaymentHeader p).data.length
      = (b64Encode (utf8Bytes (Json.stringify (proofToJson p)))).length := rfl
  have h6 := byteLength_ge_len (encodePaymentHeader p)
  omega

/-- C1 (amended): a transport failure of the very first fetch is NOT
    recovered locally -- the NetworkError doFetch raises escapes request
    as a thrown exception carrying the transport diagnostic. -/
theorem request_transport_propagates (cfg : X402ClientConfig)
    (fetchFn : Nat → RawFetch)
    (transferFn : TransferArgs → Except String TransferResponse) (msg : String)
    (h : fetchFn 0 = RawFetch.failure msg) :
    request cfg fetchFn transferFn = .error ("x402 request failed: " ++ msg) := by
  simp [request, doFetch, h]

/-- Witness for C1: the transport diagnostic of a concrete failing fetch
    escapes request. -/
theorem request_transport_propagates_witness :
    (fun _ : Nat => RawFetch.failure "boom") 0 = RawFetch.failure "boom" ∧
    request { senderWallet := "w" } (fun _ => RawFetch.failure "boom")
        (fun _ => .error "no transfer")
      = .error ("x402 request failed: " ++ "boom") :=
  ⟨rfl, request_transport_propagates { senderWallet := "w" } _ _ "boom" rfl⟩

/-- C1 counterexample: with every fetch timing out, request does not
    return a structured result -- the timeout exception (with the distinct
    timed-out message) reaches the caller. -/
theorem request_throws_on_timeout :
    request { senderWallet := "w" } (fun _ => RawFetch.abortError)
        (fun _ => .error "unused")
      = .error "x402 request timed out after 15000ms" := rfl

/-- C2 (amended): the codec round-trips exactly on the valid proofs whose
    encoded header respects the 16384-byte size cap; the decoded value is
    the canonical JSON form of the proof. -/
theorem roundtrip_under_cap (p : X402PaymentProof)
    (hv : p.x402Version = 2)
    (hs : p.scheme ≠ "")
    (hsig : p.payload.signature ≠ "")
    (hlen : ¬ byteLength (encodePaymentHeader p) > MAX_PAYMENT_HEADER_BYTES) :
    decodePaymentHeader (encodePaymentHeader p) = some (proofToJson p) :=
  decode_encode p hv hs hsig hlen

set_option maxRecDepth 100000 in
/-- Witness for C2: a small valid proof survives the round trip. -/
theorem roundtrip_under_cap_witness :
    ¬ byteLength (encodePaymentHeader pSmall) > MAX_PAYMENT_HEADER_BYTES ∧
    decodePaymentHeader (encodePaymentHeader pSmall) = some (proofToJson pSmall) :=
  ⟨by decide, roundtrip_under_cap pSmall rfl (by decide) (by decide) (by decide)⟩

/-- C2 counterexample: a valid proof (version 2, non-empty scheme and
    signature) whose signature is 20000 characters long decodes to the
    invalid marker, not to itself: the size cap breaks the round trip. -/
theorem roundtrip_breaks_over_cap :
    decodePaymentHeader (encodePaymentHeader bigProof) = none ∧
    some (proofToJson bigProof) ≠ (none : Option Json) := by
  refine ⟨?_, by simp⟩
  have h : byteLength (encodePaymentHeader bigProof) > MAX_PAYMENT_HEADER_BYTES := by
    apply encode_big_oversize
    have hsig : bigProof.payload.signature.data.length = (List.replicate 20000 'a').length := rfl
    rw [hsig, List.length_replicate]
    decide
  rw [decodePaymentHeader, if_pos h]

/-- C6: resource binding at the gate.  A request carrying a decodable,
    supported-scheme proof whose embedded payload.resource is a present
    (truthy) string different from the request path draws a 402 with the
    resource-mismatch diagnostic, zero facilitator verify or settle calls,
    and no pass-through to the protected handler. -/
theorem gate_resource_mismatch (config : X402MiddlewareConfig)
    (verifyFn : FacilitatorCall → X402VerifyResult)
    (settleFn : FacilitatorCall → SettleResult)
    (req : GateRequest) (ph : String) (proof : Json) (s r : String)
    (hh : jsOptStrOr req.xPaymentLower req.xPaymentUpper = some ph)
    (hne : ph ≠ "")
    (hlen : ¬ byteLength ph > MAX_PAYMENT_HEADER_BYTES)
    (hd : decodePaymentHeader ph = some proof)
    (hs : jGet proof "scheme" = some (.str s))
    (hsw : isShadowwire s = true)
    (hr : (jGet proof "payload").bind (fun pl => jGet pl "resource") = some (.str r))
    (hrne : r ≠ "")
    (hrd : r ≠ jsStrOr (jsOptStrOr req.path req.url) "/") :
    (x402Paywall config verifyFn settleFn req).res.status = some 402 ∧
    (∃ body, (x402Paywall config verifyFn settleFn req).res.challengeBody = some body ∧
       body.verifyError = some "Payment proof resource mismatch") ∧
    (x402Paywall config verifyFn settleFn req).verifyCalls = [] ∧
    (x402Paywall config verifyFn settleFn req).settleCalls = [] ∧
    (x402Paywall config verifyFn settleFn req).nextCalled = false := by
  simp [x402Paywall, hh, hne, hlen, hd, hs, hsw, hr, hrne, hrd, jTruthy]

set_option maxRecDepth 100000 in
/-- Witness for C6: a proof bound to /other presented for /api is turned
    away before any facilitator call. -/
theorem gate_resource_mismatch_witness :
    decodePaymentHeader (encodePaymentHeader pMis) = some (proofToJson pMis) ∧
    ((x402Paywall gateCfg (fun _ => { valid := true }) (fun _ => { success := true })
        { path := some "/api", xPaymentLower := some (encodePaymentHeader pMis) }).res.status
        = some 402 ∧
     (∃ body,
        (x402Paywall gateCfg (fun _ => { valid := true }) (fun _ => { success := true })
          { path := some "/api", xPaymentLower := some (encodePaymentHeader pMis) }).res.challengeBody
          = some body ∧ body.verifyError = some "Payment proof resource mismatch") ∧
     (x402Paywall gateCfg (fun _ => { valid := true }) (fun _ => { success := true })
        { path := some "/api", xPaymentLower := some (encodePaymentHeader pMis) }).verifyCalls = [] ∧
     (x402Paywall gateCfg (fun _ => { valid := true }) (fun _ => { success := true })
        { path := some "/api", xPaymentLower := some (encodePaymentHeader pMis) }).settleCalls = [] ∧
     (x402Paywall gateCfg (fun _ => { valid := true }) (fun _ => { success := true })
        { path := some "/api", xPaymentLower := some (encodePaymentHeader pMis) }).nextCalled
        = false) := by
  have henc : encodePaymentHeader pMis ≠ "" := by decide
  have hd : decodePaymentHeader (encodePaymentHeader pMis) = some (proofToJson pMis) :=
    decode_encode pMis rfl (by decide) (by decide) (by decide)
  refine ⟨hd, gate_resource_mismatch gateCfg _ _ _ (encodePaymentHeader pMis)
    (proofToJson pMis) "shadowwire" "/other" (by simp [jsOptStrOr, henc]) henc (by decide)
    hd rfl (by decide) rfl (by decide) (by decide)⟩

/-- The UTF-8 byte count of a run of n letters a is n. -/
theorem utf8_replicate_a (n : Nat) :
    ((List.replicate n 'a').flatMap utf8Char).length = n := by
  induction n with
  | zero => rfl
  | succ n ih =>
    have h1 : (utf8Char 'a').length = 1 := by decide
    simp only [List.replicate_succ, List.flatMap_cons, List.length_append, h1, ih]
    omega

/-- The 20000-byte header is not empty. -/
theorem hdrBig_ne : hdrBig ≠ "" := by
  intro hcon
  have h2 : (List.replicate 20000 'a').length = ("" : String).data.length := by
    rw [show (List.replicate 20000 'a') = hdrBig.data from rfl, hcon]
  rw [List.length_replicate, show ("" : String).data.length = 0 from rfl] at h2
  omega

/-- C7 counterexample: the 400 oversized-header rejection carries no
    headers at all -- neither cache-prevention nor advertisement. -/
theorem gate_oversized_rejection_bare :
    ((x402Paywall gateCfg (fun _ => { valid := true }) (fun _ => { success := true })
        { xPaymentLower := some hdrBig }).res.status = some 400) ∧
    ((x402Paywall gateCfg (fun _ => { valid := true }) (fun _ => { success := true })
        { xPaymentLower := some hdrBig }).res.headers = []) := by
  have h400 : byteLength hdrBig > MAX_PAYMENT_HEADER_BYTES := by
    have h20 : byteLength hdrBig = 20000 := utf8_replicate_a 20000
    rw [h20]; decide
  have hne := hdrBig_ne
  constructor <;> simp [x402Paywall, jsOptStrOr, hne, h400]

/-- C7 (amended): every 402 challenge response of the paywall sets the
    WWW-Authenticate advertisement, the Vary negotiation header and the
    Cache-Control no-store header; the 400 oversized rejection is the
    branch that sets none of them. -/
theorem gate_402_sets_cache_headers (config : X402MiddlewareConfig)
    (verifyFn : FacilitatorCall → X402VerifyResult)
    (settleFn : FacilitatorCall → SettleResult) (req : GateRequest)
    (h : (x402Paywall config verifyFn settleFn req).res.status = some 402) :
    ("WWW-Authenticate", "X402") ∈ (x402Paywall config verifyFn settleFn req).res.headers ∧
    ("Vary", PAYMENT_HEADER_NAME) ∈ (x402Paywall config verifyFn settleFn req).res.headers ∧
    ("Cache-Control", "no-store") ∈ (x402Paywall config verifyFn settleFn req).res.headers := by
  revert h
  simp only [x402Paywall]
  repeat' split
  all_goals (intro h; simp_all [PAYMENT_HEADER_NAME])

/-- Witness for C7: the no-header 402 challenge carries the three
    headers. -/
theorem gate_402_sets_cache_headers_witness :
    ((x402Paywall gateCfg (fun _ => { valid := true }) (fun _ => { success := true })
        {}).res.status = some 402) ∧
    (("WWW-Authenticate", "X402")
        ∈ (x402Paywall gateCfg (fun _ => { valid := true }) (fun _ => { success := true })
            {}).res.headers ∧
     ("Vary", PAYMENT_HEADER_NAME)
        ∈ (x402Paywall gateCfg (fun _ => { valid := true }) (fun _ => { success := true })
            {}).res.headers ∧
     ("Cache-Control", "no-store")
        ∈ (x402Paywall gateCfg (fun _ => { valid := true }) (fun _ => { success := true })
            {}).res.headers) := by
  have h : (x402Paywall gateCfg (fun _ => { valid := true }) (fun _ => { success := true })
      {}).res.status = some 402 := rfl
  exact ⟨h, gate_402_sets_cache_headers _ _ _ _ h⟩

/-- C9: callback isolation.  Whenever the middleware records a thrown
    post-payment callback exception, it has still passed control to the
    protected handler and produced no error response of its own: the
    exception is swallowed, never surfaced to the requester. -/
theorem gate_callback_isolated (config : X402MiddlewareConfig)
    (verifyFn : FacilitatorCall → X402VerifyResult)
    (settleFn : FacilitatorCall → SettleResult) (req : GateRequest) (e : String)
    (h : (x402Paywall config verifyFn settleFn req).callbackError = some e) :
    (x402Paywall config verifyFn settleFn req).nextCalled = true ∧
    (x402Paywall config verifyFn settleFn req).res.status = none := by
  revert h
  simp only [x402Paywall]
  repeat' split
  all_goals (intro h; simp_all)

set_option maxRecDepth 100000 in
/-- Witness for C9: a callback that throws boom does not keep the gate
    from passing through. -/
theorem gate_callback_isolated_witness :
    (x402Paywall gateCfgThrow (fun _ => { valid := true, payer := some "alice" })
        (fun _ => { success := true, txHash := some "tx1" })
        { path := some "/r", xPaymentLower := some (encodePaymentHeader pOk) }).callbackError
      = some "boom" ∧
    ((x402Paywall gateCfgThrow (fun _ => { valid := true, payer := some "alice" })
        (fun _ => { success := true, txHash := some "tx1" })
        { path := some "/r", xPaymentLower := some (encodePaymentHeader pOk) }).nextCalled
      = true ∧
     (x402Paywall gateCfgThrow (fun _ => { valid := true, payer := some "alice" })
        (fun _ => { success := true, txHash := some "tx1" })
        { path := some "/r", xPaymentLower := some (encodePaymentHeader pOk) }).res.status
      = none) := by
  have h : (x402Paywall gateCfgThrow (fun _ => { valid := true, payer := some "alice" })
      (fun _ => { success := true, txHash := some "tx1" })
      { path := some "/r", xPaymentLower := some (encodePaymentHeader pOk) }).callbackError
      = some "boom" := rfl
  exact ⟨h, gate_callback_isolated _ _ _ _ "boom" h⟩
